import Mathlib

/-!
# The cache simulator of `project7/proj07.cpp`

A shallow embedding of class `Microprocessor`: a 16-register, 64 KiB machine with
an 8-line direct-mapped write-back cache, driven by `LDR`/`STR` records.

Conventions of the embedding.

* Machine integers are natural numbers (`int reg` is an integer); every
  conversion to `uint8_t` / `uint16_t` that the C++ performs is written as an
  explicit `% 256` / `% 65536`.
* The arrays `Cache[8]`, `r[16]`, `RAM[65536]` and `data[8]` are functions from
  positions to contents.  Every subscript the C++ evaluates goes through a
  bounds-checked primitive: a subscript outside the array is undefined behaviour
  in C++ and is a `Fault` here, carrying the machine state reached at that point.
* `cout` is a list of output items, oldest first.  The hexadecimal rendering of
  numbers is not modelled: an output item carries the numbers that are printed.
* Parsing of text lines is outside the embedding: `readInstr` receives the
  outcome of the stream extraction `iss >> operation >> std::hex >> reg >> addr`.
-/

namespace Proj07

/-! ## Data model -/

/-- One cache line, `struct CacheLine`: a `uint16_t` tag and `uint8_t data[8]`. -/
structure CacheLine where
  valid : Bool
  mod : Bool
  tag : Nat
  data : Nat → Nat

/-- The trace line printed at the end of `loadCache` / `storeCache`.  The field
`value` is `none` when the local variable `value` was never assigned. -/
structure TraceLine where
  op : String
  reg : Int
  addr : Nat
  tag : Nat
  index : Nat
  offset : Nat
  hitBit : Char
  value : Option Nat
deriving DecidableEq

/-- One row of the cache table as printed: valid, modified, tag, eight bytes. -/
structure CacheRow where
  valid : Bool
  mod : Bool
  tag : Nat
  bytes : List Nat
deriving DecidableEq

/-- What the program writes to standard output. -/
inductive Output where
  | trace (t : TraceLine)
  | cacheContents (rows : List CacheRow)
  | snapshot (regs : List Nat) (rows : List CacheRow) (ram : List (List Nat))
deriving DecidableEq

/-- The state of a `Microprocessor` object together with its standard output. -/
structure Microprocessor where
  Cache : Nat → CacheLine
  r : Nat → Nat
  RAM : Nat → Nat
  debug : Bool
  cout : List Output

/-- An array subscript outside its array. -/
inductive Fault where
  | cacheSlot (i : Nat)
  | lineData (pos : Nat)
  | ram (i : Nat)
  | register (reg : Int)
deriving DecidableEq

/-- Outcome of running a piece of the program: it ran to its end in state `m`,
or it reached an out-of-range subscript in state `m`. -/
inductive Res (α : Type) where
  | ok (x : α) (m : Microprocessor)
  | fault (f : Fault) (m : Microprocessor)

/-- The machine state an outcome ends in. -/
def Res.state {α : Type} : Res α → Microprocessor
  | .ok _ m => m
  | .fault _ m => m

/-- Whether the outcome is a normal end. -/
def Res.isOk {α : Type} : Res α → Bool
  | .ok _ _ => true
  | .fault _ _ => false

/-- A statement sequence acting on the machine. -/
def Exec (α : Type) : Type := Microprocessor → Res α

/-- Sequencing stops at the first fault. -/
def Exec.bind {α β : Type} (x : Exec α) (f : α → Exec β) : Exec β :=
  fun m =>
    match x m with
    | .ok a m1 => f a m1
    | .fault e m1 => .fault e m1

/-- A statement sequence that does nothing. -/
def Exec.pure {α : Type} (a : α) : Exec α := fun m => .ok a m

instance : Monad Exec where
  pure := Exec.pure
  bind := Exec.bind

/-! ## Array accesses -/

/-- Evaluation of `Cache[i]`. -/
def cacheAt (i : Nat) : Exec CacheLine :=
  fun m => if i < 8 then .ok (m.Cache i) m else .fault (.cacheSlot i) m

/-- Assignment through the reference `line` bound to `Cache[i]`. -/
def setLine (i : Nat) (f : CacheLine → CacheLine) : Exec Unit :=
  fun m => .ok () { m with Cache := Function.update m.Cache i (f (m.Cache i)) }

/-- Read of `line.data[pos]` for the line `Cache[i]`. -/
def dataGet (i pos : Nat) : Exec Nat :=
  fun m => if pos < 8 then .ok ((m.Cache i).data pos) m else .fault (.lineData pos) m

/-- Write of `line.data[pos] = v` for the line `Cache[i]`. -/
def dataSet (i pos v : Nat) : Exec Unit :=
  fun m =>
    if pos < 8 then
      setLine i (fun l => { l with data := Function.update l.data pos v }) m
    else .fault (.lineData pos) m

/-- Read of `RAM[i]`. -/
def ramGet (i : Nat) : Exec Nat :=
  fun m => if i < 65536 then .ok (m.RAM i) m else .fault (.ram i) m

/-- Write of `RAM[i] = v`. -/
def ramSet (i v : Nat) : Exec Unit :=
  fun m =>
    if i < 65536 then .ok () { m with RAM := Function.update m.RAM i v }
    else .fault (.ram i) m

/-- Read of `r[reg]`. -/
def regGet (reg : Int) : Exec Nat :=
  fun m => if 0 ≤ reg ∧ reg < 16 then .ok (m.r reg.toNat) m else .fault (.register reg) m

/-- Write of `r[reg] = v`. -/
def regSet (reg : Int) (v : Nat) : Exec Unit :=
  fun m =>
    if 0 ≤ reg ∧ reg < 16 then
      .ok () { m with r := Function.update m.r reg.toNat v }
    else .fault (.register reg) m

/-- Read of the member `debug`. -/
def getDebug : Exec Bool :=
  fun m => .ok m.debug m

/-- Append an item to standard output. -/
def emit (o : Output) : Exec Unit :=
  fun m => .ok () { m with cout := m.cout ++ [o] }

/-- The loop `for(int i = start; i < start + n; ++i) body(i)`. -/
def forLoop (body : Nat → Exec Unit) : Nat → Nat → Exec Unit
  | 0, _ => pure ()
  | n + 1, i => do
      body i
      forLoop body n (i + 1)

/-! ## Address decomposition (lines 104-107 and 160-163) -/

/-- The local `uint8_t byteOffset = addr & 0x7`. -/
def byteOffset (addr : Nat) : Nat := (addr &&& 0x7) % 256

/-- The local `uint8_t cacheIndex = (addr >> 3) & 0x7`. -/
def cacheIndex (addr : Nat) : Nat := ((addr >>> 3) &&& 0x7) % 256

/-- The local `uint16_t tag = (addr >> 6) & 0x3FF`. -/
def tagOf (addr : Nat) : Nat := ((addr >>> 6) &&& 0x3FF) % 65536

/-- The local `uint16_t blockAddr = addr & 0xFFF8`. -/
def blockAddr (addr : Nat) : Nat := (addr &&& 0xFFF8) % 65536

/-- The local `bool hit = (line.valid && line.tag == tag)`. -/
def isHit (line : CacheLine) (addr : Nat) : Bool :=
  line.valid && line.tag == tagOf addr

/-- The local `uint16_t oldBlockAddr = (line.tag << 6) | (cacheIndex << 3)`. -/
def oldBlockAddr (line : CacheLine) (index : Nat) : Nat :=
  ((line.tag <<< 6) ||| (index <<< 3)) % 65536

/-! ## Display -/

/-- The rows printed by the cache loop of `display` and `displayCache`. -/
def cacheRows (m : Microprocessor) : List CacheRow :=
  (List.range 8).map fun i =>
    { valid := (m.Cache i).valid, mod := (m.Cache i).mod, tag := (m.Cache i).tag,
      bytes := (List.range 8).map (m.Cache i).data }

/-- The member function `displayCache`: the cache table only. -/
def displayCache : Exec Unit :=
  fun m => emit (.cacheContents (cacheRows m)) m

/-- The member function `display`: registers, cache table, `RAM[0..127]`. -/
def display : Exec Unit :=
  fun m =>
    emit (.snapshot ((List.range 16).map m.r) (cacheRows m)
      ((List.range 8).map fun row => (List.range 16).map fun j => m.RAM (16 * row + j))) m

/-! ## Instructions -/

/-- The miss path shared by lines 121-131 and 178-188: write the resident line
back when it is valid and modified, then copy the block in from `RAM`. -/
def evictAndFill (addr : Nat) : Exec Unit := do
  let line ← cacheAt (cacheIndex addr)
  if line.valid && line.mod then
    forLoop (fun i => do
      let d ← dataGet (cacheIndex addr) i
      ramSet (oldBlockAddr line (cacheIndex addr) + i) d) 8 0
  forLoop (fun i => do
    let b ← ramGet (blockAddr addr + i)
    dataSet (cacheIndex addr) i b) 8 0

/-- The member function `loadCache` (instruction `LDR`). -/
def loadCache (reg : Int) (addr : Nat) : Exec Unit := do
  let line ← cacheAt (cacheIndex addr)
  let hit := isHit line addr
  let hitBit := if hit then 'H' else 'M'
  let value ←
    if hit then do
      let b1 ← dataGet (cacheIndex addr) (byteOffset addr + 1)
      let b0 ← dataGet (cacheIndex addr) (byteOffset addr)
      let value := ((b1 <<< 8) ||| b0) % 65536
      regSet reg value
      pure value
    else do
      evictAndFill addr
      setLine (cacheIndex addr) (fun l => { l with valid := true })
      setLine (cacheIndex addr) (fun l => { l with mod := false })
      setLine (cacheIndex addr) (fun l => { l with tag := tagOf addr })
      let b0 ← dataGet (cacheIndex addr) (byteOffset addr)
      let b1 ← dataGet (cacheIndex addr) (byteOffset addr + 1)
      let value := ((b0 <<< 8) ||| b1) % 65536
      regSet reg value
      pure value
  emit (.trace { op := "LDR", reg := reg, addr := addr, tag := tagOf addr,
                 index := cacheIndex addr, offset := byteOffset addr,
                 hitBit := hitBit, value := some value })
  if (← getDebug) then displayCache

/-- The member function `storeCache` (instruction `STR`).  The local `value` is
declared and printed but never assigned. -/
def storeCache (reg : Int) (addr : Nat) : Exec Unit := do
  let line ← cacheAt (cacheIndex addr)
  let value : Option Nat := none
  let hit := isHit line addr
  let hitBit := if hit then 'H' else 'M'
  if hit then do
    let v ← regGet reg
    dataSet (cacheIndex addr) (byteOffset addr) ((v &&& 0xFF) % 256)
    let v ← regGet reg
    dataSet (cacheIndex addr) (byteOffset addr + 1) (((v >>> 8) &&& 0xFF) % 256)
    setLine (cacheIndex addr) (fun l => { l with mod := true })
  else do
    evictAndFill addr
    setLine (cacheIndex addr) (fun l => { l with valid := true })
    setLine (cacheIndex addr) (fun l => { l with tag := tagOf addr })
    let v ← regGet reg
    dataSet (cacheIndex addr) (byteOffset addr) (((v >>> 8) &&& 0xFF) % 256)
    let v ← regGet reg
    dataSet (cacheIndex addr) (byteOffset addr + 1) ((v &&& 0xFF) % 256)
    setLine (cacheIndex addr) (fun l => { l with mod := true })
  emit (.trace { op := "STR", reg := reg, addr := addr, tag := tagOf addr,
                 index := cacheIndex addr, offset := byteOffset addr,
                 hitBit := hitBit, value := value })
  if (← getDebug) then displayCache

/-- A text line after the extraction `iss >> operation >> std::hex >> reg >> addr`
succeeded: a word, an `int` and a `uint16_t`. -/
structure Record where
  operation : String
  reg : Int
  addr : Nat

/-- The member function `readInstr`; `none` is a line on which the extraction
failed. -/
def readInstr (line : Option Record) : Exec Unit :=
  match line with
  | some rec =>
      if rec.operation = "LDR" then loadCache rec.reg rec.addr
      else if rec.operation = "STR" then storeCache rec.reg rec.addr
      else pure ()
  | none => pure ()

/-- The `while(std::getline(file, line))` loop of `Start`. -/
def readAll : List (Option Record) → Exec Unit
  | [] => pure ()
  | l :: ls => do
      readInstr l
      readAll ls

/-- The member function `Start` on the lines of the input file. -/
def Start (lines : List (Option Record)) : Exec Unit := do
  readAll lines
  display

/-- A line of the memory image file on which every extraction succeeded: the
`uint16_t addr` and the sixteen `int byte` values that follow it. -/
structure ImageRow where
  addr : Nat
  byte : Nat → Int

/-- The `while(std::getline(file,line))` loop of `loadRAM`. -/
def loadRows : List ImageRow → Exec Unit
  | [] => pure ()
  | row :: rows => do
      forLoop (fun i => ramSet (row.addr + i) (row.byte i % 256).toNat) 16 0
      loadRows rows

/-- The member function `loadRAM`; `image` lists the lines of the image file, and
is empty when the file name is empty or the file cannot be read. -/
def loadRAM (image : List ImageRow) : Exec Unit := do
  loadRows image
  if (← getDebug) then display

/-- The object after its default member initialisers, which is also the object
built by the constructor `Microprocessor(inputFile, debug)`: every cache line
invalid with tag 0 and zero data, registers zero, `RAM` zero, nothing printed. -/
def init (debug : Bool) : Microprocessor :=
  { Cache := fun _ => { valid := false, mod := false, tag := 0, data := fun _ => 0 },
    r := fun _ => 0,
    RAM := fun _ => 0,
    debug := debug,
    cout := [] }

/-- The constructor `Microprocessor(inputFile, ramFile, debug)`. -/
def constructWithRam (image : List ImageRow) (debug : Bool) : Res Unit :=
  loadRAM image (init debug)

/-- The array subscript at which an outcome stopped, if it did. -/
def Res.faultOf {α : Type} : Res α → Option Fault
  | .ok _ _ => none
  | .fault f _ => some f

/-- The trace lines among the items printed. -/
def traces : List Output → List TraceLine
  | [] => []
  | .trace t :: os => t :: traces os
  | _ :: os => traces os

/-! ## Closed forms of the states the instructions produce

These are not part of the embedding: each is tied to the embedded code by an
equation proved below, and the results are stated over the embedded code. -/

/-- Closed form of `RAM` after the write-back loop of the miss path. -/
def ramAfterEvict (m : Microprocessor) (addr : Nat) : Nat → Nat :=
  if (m.Cache (cacheIndex addr)).valid && (m.Cache (cacheIndex addr)).mod then
    fun x =>
      if oldBlockAddr (m.Cache (cacheIndex addr)) (cacheIndex addr) ≤ x
          ∧ x < oldBlockAddr (m.Cache (cacheIndex addr)) (cacheIndex addr) + 8 then
        (m.Cache (cacheIndex addr)).data
          (x - oldBlockAddr (m.Cache (cacheIndex addr)) (cacheIndex addr))
      else m.RAM x
  else m.RAM

/-- Closed form of the line data after the fill loop of the miss path. -/
def dataAfterFill (m : Microprocessor) (addr : Nat) : Nat → Nat :=
  fun k =>
    if k < 8 then ramAfterEvict m addr (blockAddr addr + k)
    else (m.Cache (cacheIndex addr)).data k

/-- Closed form of the state after `evictAndFill`. -/
def afterFill (m : Microprocessor) (addr : Nat) : Microprocessor :=
  { m with
    RAM := ramAfterEvict m addr,
    Cache := Function.update m.Cache (cacheIndex addr)
      { m.Cache (cacheIndex addr) with data := dataAfterFill m addr } }

/-- The state after the trace line `t` (and, in debug mode, the cache table)
has been printed from state `m`. -/
def printed (t : TraceLine) (m : Microprocessor) : Microprocessor :=
  { m with cout := (m.cout ++ [.trace t]) ++
      (if m.debug then [.cacheContents (cacheRows m)] else []) }

/-- The trace line of an instruction. -/
def traceOf (op : String) (reg : Int) (addr : Nat) (hit : Bool) (value : Option Nat) :
    TraceLine :=
  { op := op, reg := reg, addr := addr, tag := tagOf addr, index := cacheIndex addr,
    offset := byteOffset addr, hitBit := if hit then 'H' else 'M', value := value }

/-- The value a load delivers on the hit path. -/
def hitValue (m : Microprocessor) (addr : Nat) : Nat :=
  (((m.Cache (cacheIndex addr)).data (byteOffset addr + 1) <<< 8)
    ||| (m.Cache (cacheIndex addr)).data (byteOffset addr)) % 65536

/-- The value a load delivers on the miss path. -/
def missValue (m : Microprocessor) (addr : Nat) : Nat :=
  ((dataAfterFill m addr (byteOffset addr) <<< 8)
    ||| dataAfterFill m addr (byteOffset addr + 1)) % 65536

/-- The state after the miss path of a load, before the register is written. -/
def loadMissState (m : Microprocessor) (addr : Nat) : Microprocessor :=
  { m with
    RAM := ramAfterEvict m addr,
    Cache := Function.update m.Cache (cacheIndex addr)
      { valid := true, mod := false, tag := tagOf addr, data := dataAfterFill m addr } }

/-- The cache line a store leaves on the hit path. -/
def storeHitLine (m : Microprocessor) (reg : Int) (addr : Nat) : CacheLine :=
  { m.Cache (cacheIndex addr) with
    mod := true,
    data := Function.update
      (Function.update (m.Cache (cacheIndex addr)).data (byteOffset addr)
        ((m.r reg.toNat &&& 0xFF) % 256))
      (byteOffset addr + 1) (((m.r reg.toNat >>> 8) &&& 0xFF) % 256) }

/-- The cache line a store leaves on the miss path. -/
def storeMissLine (m : Microprocessor) (reg : Int) (addr : Nat) : CacheLine :=
  { valid := true,
    mod := true,
    tag := tagOf addr,
    data := Function.update
      (Function.update (dataAfterFill m addr) (byteOffset addr)
        (((m.r reg.toNat >>> 8) &&& 0xFF) % 256))
      (byteOffset addr + 1) ((m.r reg.toNat &&& 0xFF) % 256) }

/-- The state after the miss path of a store has filled and retagged the line,
before the register is read. -/
def storeFillState (m : Microprocessor) (addr : Nat) : Microprocessor :=
  { m with
    RAM := ramAfterEvict m addr,
    Cache := Function.update m.Cache (cacheIndex addr)
      { valid := true, mod := (m.Cache (cacheIndex addr)).mod, tag := tagOf addr,
        data := dataAfterFill m addr } }

/-- The state of a store at the moment its second byte is written. -/
def storeFirstByteState (m : Microprocessor) (reg : Int) (addr : Nat) : Microprocessor :=
  if isHit (m.Cache (cacheIndex addr)) addr then
    { m with
      Cache := Function.update m.Cache (cacheIndex addr)
        { m.Cache (cacheIndex addr) with
          data := Function.update (m.Cache (cacheIndex addr)).data (byteOffset addr)
            ((m.r reg.toNat &&& 0xFF) % 256) } }
  else
    { m with
      RAM := ramAfterEvict m addr,
      Cache := Function.update m.Cache (cacheIndex addr)
        { valid := true, mod := (m.Cache (cacheIndex addr)).mod, tag := tagOf addr,
          data := Function.update (dataAfterFill m addr) (byteOffset addr)
            (((m.r reg.toNat >>> 8) &&& 0xFF) % 256) } }

/-! ## Concrete runs -/

/-- The state after `STR 0 0000` on the constructed machine (scenario C). -/
def afterStr0 : Microprocessor := (storeCache 0 0x0000 (init false)).state

/-- The constructed machine with register 1 preloaded to `0x1234` (scenario B). -/
def scenarioB : Microprocessor :=
  { init false with r := Function.update (init false).r 1 0x1234 }

/-- The image line `0000: 12 34 00 00 00 00 00 00 00 00 00 00 00 00 00 00`. -/
def imageRow1234 : ImageRow :=
  { addr := 0, byte := fun i => if i = 0 then 0x12 else if i = 1 then 0x34 else 0 }

/-- The machine constructed from the image file holding `imageRow1234`. -/
def seeded : Microprocessor := (constructWithRam [imageRow1234] false).state

/-- Scenario B as a stream: `STR 1 0010`, `LDR 2 0010`. -/
def streamB : List (Option Record) := [some ⟨"STR", 1, 0x10⟩, some ⟨"LDR", 2, 0x10⟩]

/-- The stream `LDR 1 0000`, `STR 1 0010`, `LDR 2 0010`. -/
def streamB2 : List (Option Record) :=
  [some ⟨"LDR", 1, 0x00⟩, some ⟨"STR", 1, 0x10⟩, some ⟨"LDR", 2, 0x10⟩]

/-- The stream `LDR 0 0000`, `LDR 1 0000`. -/
def streamTwoLoads : List (Option Record) := [some ⟨"LDR", 0, 0x00⟩, some ⟨"LDR", 1, 0x00⟩]

/-- The stream `LDR 1 0000`, `STR 1 0010`. -/
def streamLoadStore : List (Option Record) := [some ⟨"LDR", 1, 0x00⟩, some ⟨"STR", 1, 0x10⟩]

/-- The state after `streamLoadStore` on the seeded machine: register 1 holds
`0x1234` and the store has missed. -/
def afterStoreMiss : Microprocessor := (readAll streamLoadStore seeded).state

/-- The record `LDR 10 0000`, whose register index is 16. -/
def recLdr16 : Record := ⟨"LDR", 16, 0x0000⟩

/-! ## Notions the claims are stated with -/

/-- Whether a line of the input file is an `LDR` or `STR` record. -/
def recognised : Option Record → Bool
  | some rec => rec.operation = "LDR" || rec.operation = "STR"
  | none => false

/-- A state the program can be in between two lines of the input file: the object
was built by one of the constructors and then read some lines to their end. -/
def Reachable (m : Microprocessor) : Prop :=
  ∃ (image : List ImageRow) (debug : Bool) (m0 : Microprocessor)
    (lines : List (Option Record)),
    (m0 = init debug ∨ constructWithRam image debug = .ok () m0)
    ∧ readAll lines m0 = .ok () m

/-- The clean-line invariant: every tag is below 1024, and a line that is valid
and not modified holds the eight bytes of `RAM` at its own block address. -/
def CleanLinesMirror (m : Microprocessor) : Prop :=
  ∀ i, i < 8 →
    (m.Cache i).tag < 1024
    ∧ ((m.Cache i).valid = true → (m.Cache i).mod = false →
        ∀ k, k < 8 →
          (m.Cache i).data k = m.RAM ((((m.Cache i).tag <<< 6) ||| (i <<< 3)) + k))

/-- The byte at address `x` seen through the cache: the line byte when the block
of `x` is resident, the memory byte otherwise. -/
def view (m : Microprocessor) (x : Nat) : Nat :=
  if isHit (m.Cache (cacheIndex x)) x then (m.Cache (cacheIndex x)).data (byteOffset x)
  else m.RAM x

/-- The full snapshots among the items printed. -/
def snapshots : List Output → List Output
  | [] => []
  | .snapshot regs rows ram :: os => .snapshot regs rows ram :: snapshots os
  | _ :: os => snapshots os

/-- The item `display` prints in state `m`: sixteen registers, eight cache rows,
eight rows of sixteen memory bytes. -/
def snapshotOf (m : Microprocessor) : Output :=
  .snapshot ((List.range 16).map m.r) (cacheRows m)
    ((List.range 8).map fun row => (List.range 16).map fun j => m.RAM (16 * row + j))

/-- The stream of scenario C: `STR 0 0000`, `STR 0 0040`. -/
def streamC : List (Option Record) := [some ⟨"STR", 0, 0x0000⟩, some ⟨"STR", 0, 0x0040⟩]

/-- The state after `streamC` on the constructed machine. -/
def afterStreamC : Microprocessor := (readAll streamC (init false)).state

/-- The state after `LDR 0 0000` on the machine constructed in debug mode. -/
def afterDebugLoad1 : Microprocessor := (loadCache 0 0x0000 (init true)).state

/-- The state after `streamTwoLoads` on the machine constructed in debug mode. -/
def afterDebugLoad2 : Microprocessor := (readAll streamTwoLoads (init true)).state

/-- The state after `streamTwoLoads` on the seeded machine. -/
def afterTwoLoads : Microprocessor := (readAll streamTwoLoads seeded).state

/-- The state after `STR 1 0010` on `scenarioB` (the store misses). -/
def tripAfterStore : Microprocessor := (storeCache 1 0x0010 scenarioB).state

/-- The state after `LDR 3 0050`, which evicts the line of `0x0010`. -/
def tripAfterEvict : Microprocessor := (loadCache 3 0x0050 tripAfterStore).state

theorem and_0xFFF8 (a : Nat) : a &&& 0xFFF8 = (a / 8 % 8192) * 8 := by
  apply Nat.eq_of_testBit_eq
  intro i
  rw [Nat.testBit_and]
  have h : (a / 8 % 8192) * 8 = (a >>> 3 % 2 ^ 13) <<< 3 := by
    simp [Nat.shiftLeft_eq, Nat.shiftRight_eq_div_pow]
  rw [h, Nat.testBit_shiftLeft, Nat.testBit_mod_two_pow, Nat.testBit_shiftRight]
  by_cases h3 : 3 ≤ i
  · by_cases h16 : i < 16
    · have h13 : i - 3 < 13 := by omega
      have e : 3 + (i - 3) = i := by omega
      simp [h3, h13, e]
      interval_cases i <;> simp [Nat.testBit, Nat.shiftRight_eq_div_pow]
    · have h1 : Nat.testBit 0xFFF8 i = false := by
        apply Nat.testBit_lt_two_pow
        calc 0xFFF8 < 2 ^ 16 := by norm_num
          _ ≤ 2 ^ i := Nat.pow_le_pow_right (by norm_num) (by omega)
      have h13 : ¬ (i - 3 < 13) := by omega
      simp [h1, h13]
  · have h2 : i < 3 := by omega
    interval_cases i <;> simp [Nat.testBit, Nat.shiftRight_eq_div_pow]

theorem byteOffset_eq (a : Nat) : byteOffset a = a % 8 := by
  have h := Nat.and_pow_two_sub_one_eq_mod a 3
  simp only [byteOffset]
  norm_num at h
  rw [h]; omega

theorem cacheIndex_eq (a : Nat) : cacheIndex a = a / 8 % 8 := by
  have h := Nat.and_pow_two_sub_one_eq_mod (a >>> 3) 3
  simp only [cacheIndex]
  norm_num at h
  rw [h, Nat.shiftRight_eq_div_pow]; omega

theorem tagOf_eq (a : Nat) : tagOf a = a / 64 % 1024 := by
  have h := Nat.and_pow_two_sub_one_eq_mod (a >>> 6) 10
  simp only [tagOf]
  norm_num at h
  rw [h, Nat.shiftRight_eq_div_pow]; omega

theorem blockAddr_eq (a : Nat) : blockAddr a = (a / 8 % 8192) * 8 := by
  simp only [blockAddr, and_0xFFF8]; omega

theorem shift_or_eq (t i : Nat) (hi : i < 8) : (t <<< 6) ||| (i <<< 3) = t * 64 + i * 8 := by
  have h : i * 8 < 2 ^ 6 := by norm_num; omega
  have e := Nat.mul_add_lt_is_or h t
  simp only [Nat.shiftLeft_eq]
  norm_num at e ⊢
  rw [Nat.mul_comm _ 64, ← e]

theorem oldBlockAddr_eq (l : CacheLine) (i : Nat) (hi : i < 8) :
    oldBlockAddr l i = (l.tag * 64 + i * 8) % 65536 := by
  simp only [oldBlockAddr, shift_or_eq _ _ hi]

theorem and_0xFF (v : Nat) : v &&& 0xFF = v % 256 := by
  have h := Nat.and_pow_two_sub_one_eq_mod v 8
  norm_num at h
  exact h

theorem shift_or_byte (hi lo : Nat) (h : lo < 256) : (hi <<< 8) ||| lo = hi * 256 + lo := by
  have h8 : lo < 2 ^ 8 := by norm_num; exact h
  have e := Nat.mul_add_lt_is_or h8 hi
  simp only [Nat.shiftLeft_eq]
  norm_num at e ⊢
  rw [Nat.mul_comm _ 256, ← e]

theorem cacheIndex_lt (a : Nat) : cacheIndex a < 8 := by rw [cacheIndex_eq]; omega

theorem byteOffset_lt (a : Nat) : byteOffset a < 8 := by rw [byteOffset_eq]; omega

theorem tagOf_lt (a : Nat) : tagOf a < 1024 := by rw [tagOf_eq]; omega

theorem blockAddr_le (a : Nat) : blockAddr a ≤ 65528 := by rw [blockAddr_eq]; omega

theorem oldBlockAddr_le (l : CacheLine) (i : Nat) (hi : i < 8) : oldBlockAddr l i ≤ 65528 := by
  rw [oldBlockAddr_eq l i hi]; omega

@[simp] theorem bind_apply {α β : Type} (x : Exec α) (f : α → Exec β) (m : Microprocessor) :
    (x >>= f) m = match x m with
      | .ok a m1 => f a m1
      | .fault e m1 => .fault e m1 := rfl

@[simp] theorem pure_apply {α : Type} (a : α) (m : Microprocessor) :
    (pure a : Exec α) m = .ok a m := rfl

theorem writeBack_eq (m : Microprocessor) (idx old : Nat) (hold : old ≤ 65528) :
    forLoop (fun i => do
      let d ← dataGet idx i
      ramSet (old + i) d) 8 0 m
    = .ok () { m with RAM := fun x =>
        if old ≤ x ∧ x < old + 8 then (m.Cache idx).data (x - old) else m.RAM x } := by
  have h0 : old < 65536 := by omega
  have h1 : old + 1 < 65536 := by omega
  have h2 : old + 2 < 65536 := by omega
  have h3 : old + 3 < 65536 := by omega
  have h4 : old + 4 < 65536 := by omega
  have h5 : old + 5 < 65536 := by omega
  have h6 : old + 6 < 65536 := by omega
  have h7 : old + 7 < 65536 := by omega
  simp [forLoop, dataGet, ramSet, h0, h1, h2, h3, h4, h5, h6, h7]
  funext x
  by_cases hx : old ≤ x ∧ x < old + 8
  · obtain ⟨k, rfl⟩ : ∃ k, x = old + k := ⟨x - old, by omega⟩
    have hk : k < 8 := by omega
    interval_cases k <;> simp [Function.update_apply]
  · rw [if_neg hx]
    simp only [Function.update_apply]
    repeat (rw [if_neg (by omega)])

/-! ## The instructions in closed form -/

theorem update8_eq (f v : Nat → Nat) (g : Nat → Nat)
    (h0 : g 0 = v 0) (h1 : g 1 = v 1) (h2 : g 2 = v 2) (h3 : g 3 = v 3)
    (h4 : g 4 = v 4) (h5 : g 5 = v 5) (h6 : g 6 = v 6) (h7 : g 7 = v 7)
    (hf : ∀ k, 8 ≤ k → g k = f k) :
    g = fun k => if k < 8 then v k else f k := by
  funext k
  by_cases hk : k < 8
  · interval_cases k <;> simp [*]
  · simp [hk, hf k (by omega)]

theorem fill_eq (m : Microprocessor) (idx blk : Nat) (hblk : blk ≤ 65528) :
    forLoop (fun i => do
      let b ← ramGet (blk + i)
      dataSet idx i b) 8 0 m
    = setLine idx (fun l =>
        { l with data := fun k => if k < 8 then m.RAM (blk + k) else l.data k }) m := by
  have h0 : blk < 65536 := by omega
  have h1 : blk + 1 < 65536 := by omega
  have h2 : blk + 2 < 65536 := by omega
  have h3 : blk + 3 < 65536 := by omega
  have h4 : blk + 4 < 65536 := by omega
  have h5 : blk + 5 < 65536 := by omega
  have h6 : blk + 6 < 65536 := by omega
  have h7 : blk + 7 < 65536 := by omega
  simp [forLoop, dataSet, setLine, ramGet, h0, h1, h2, h3, h4, h5, h6, h7]
  rw [← update8_eq (m.Cache idx).data (fun k => m.RAM (blk + k))] <;>
    simp [Function.update_apply]
  intro k hk
  repeat (rw [if_neg (by omega)])

theorem evictAndFill_eq (m : Microprocessor) (addr : Nat) :
    evictAndFill addr m = .ok () (afterFill m addr) := by
  have hidx := cacheIndex_lt addr
  have hblk := blockAddr_le addr
  have hold := oldBlockAddr_le (m.Cache (cacheIndex addr)) (cacheIndex addr) hidx
  unfold evictAndFill
  simp only [bind_apply, cacheAt, if_pos hidx]
  by_cases hd : ((m.Cache (cacheIndex addr)).valid && (m.Cache (cacheIndex addr)).mod) = true
  · simp only [hd, if_true, bind_apply]
    rw [writeBack_eq m _ _ hold]
    simp only []
    rw [fill_eq _ _ _ hblk]
    unfold afterFill dataAfterFill ramAfterEvict
    simp [hd, setLine]
  · simp only [hd]
    simp only [Bool.false_eq_true, if_false, pure_apply, bind_apply]
    rw [fill_eq _ _ _ hblk]
    unfold afterFill dataAfterFill ramAfterEvict
    simp [hd, setLine]

theorem loadCache_hit (m : Microprocessor) (reg : Int) (addr : Nat)
    (hhit : isHit (m.Cache (cacheIndex addr)) addr = true)
    (hoff : byteOffset addr ≤ 6) (hr0 : 0 ≤ reg) (hr1 : reg < 16) :
    loadCache reg addr m = .ok () (printed (traceOf "LDR" reg addr true (some (hitValue m addr)))
      { m with r := Function.update m.r reg.toNat (hitValue m addr) }) := by
  have hidx := cacheIndex_lt addr
  have ho1 : byteOffset addr + 1 < 8 := by omega
  have ho0 : byteOffset addr < 8 := by omega
  unfold loadCache
  simp only [bind_apply, cacheAt, if_pos hidx, hhit, if_true, dataGet, if_pos ho1, if_pos ho0,
    regSet, hr0, hr1, and_self, pure_apply, emit, getDebug, displayCache]
  cases hdbg : m.debug <;> simp [printed, traceOf, hitValue, hdbg, cacheRows, displayCache, emit]

theorem loadCache_miss (m : Microprocessor) (reg : Int) (addr : Nat)
    (hhit : isHit (m.Cache (cacheIndex addr)) addr = false)
    (hoff : byteOffset addr ≤ 6) (hr0 : 0 ≤ reg) (hr1 : reg < 16) :
    loadCache reg addr m = .ok () (printed (traceOf "LDR" reg addr false (some (missValue m addr)))
      { loadMissState m addr with r := Function.update m.r reg.toNat (missValue m addr) }) := by
  have hidx := cacheIndex_lt addr
  have ho1 : byteOffset addr + 1 < 8 := by omega
  have ho0 : byteOffset addr < 8 := by omega
  unfold loadCache
  simp only [bind_apply, cacheAt, if_pos hidx, hhit, evictAndFill_eq, Bool.false_eq_true,
    if_false, setLine, dataGet, if_pos ho1, if_pos ho0,
    regSet, hr0, hr1, and_self, pure_apply, emit, getDebug, displayCache]
  cases hdbg : m.debug <;>
    simp [printed, traceOf, missValue, loadMissState, afterFill, hdbg, cacheRows, displayCache, emit]

theorem storeCache_hit (m : Microprocessor) (reg : Int) (addr : Nat)
    (hhit : isHit (m.Cache (cacheIndex addr)) addr = true)
    (hoff : byteOffset addr ≤ 6) (hr0 : 0 ≤ reg) (hr1 : reg < 16) :
    storeCache reg addr m = .ok () (printed (traceOf "STR" reg addr true none)
      { m with Cache := Function.update m.Cache (cacheIndex addr) (storeHitLine m reg addr) }) := by
  have hidx := cacheIndex_lt addr
  have ho1 : byteOffset addr + 1 < 8 := by omega
  have ho0 : byteOffset addr < 8 := by omega
  unfold storeCache
  simp only [bind_apply, cacheAt, if_pos hidx, hhit, if_true, dataSet, setLine, if_pos ho1,
    if_pos ho0, regGet, hr0, hr1, and_self, pure_apply, emit, getDebug, displayCache]
  cases hdbg : m.debug <;>
    simp [printed, traceOf, storeHitLine, hdbg, cacheRows, displayCache, emit]

theorem storeCache_miss (m : Microprocessor) (reg : Int) (addr : Nat)
    (hhit : isHit (m.Cache (cacheIndex addr)) addr = false)
    (hoff : byteOffset addr ≤ 6) (hr0 : 0 ≤ reg) (hr1 : reg < 16) :
    storeCache reg addr m = .ok () (printed (traceOf "STR" reg addr false none)
      { m with
        RAM := ramAfterEvict m addr,
        Cache := Function.update m.Cache (cacheIndex addr) (storeMissLine m reg addr) }) := by
  have hidx := cacheIndex_lt addr
  have ho1 : byteOffset addr + 1 < 8 := by omega
  have ho0 : byteOffset addr < 8 := by omega
  unfold storeCache
  simp only [bind_apply, cacheAt, if_pos hidx, hhit, evictAndFill_eq, Bool.false_eq_true,
    if_false, dataSet, setLine, if_pos ho1,
    if_pos ho0, regGet, hr0, hr1, and_self, pure_apply, emit, getDebug, displayCache]
  cases hdbg : m.debug <;>
    simp [printed, traceOf, storeMissLine, afterFill, hdbg, cacheRows, displayCache, emit]

theorem loadCache_fault_offset (m : Microprocessor) (reg : Int) (addr : Nat)
    (hoff : ¬ byteOffset addr ≤ 6) :
    loadCache reg addr m = .fault (.lineData (byteOffset addr + 1))
      (if isHit (m.Cache (cacheIndex addr)) addr then m else loadMissState m addr) := by
  have hidx := cacheIndex_lt addr
  have ho1 : ¬ byteOffset addr + 1 < 8 := by omega
  have ho0 : byteOffset addr < 8 := byteOffset_lt addr
  unfold loadCache
  cases hhit : isHit (m.Cache (cacheIndex addr)) addr <;>
    simp [cacheAt, hidx, hhit, evictAndFill_eq, setLine, dataGet, ho1, ho0, loadMissState,
      afterFill]

theorem loadCache_fault_register (m : Microprocessor) (reg : Int) (addr : Nat)
    (hoff : byteOffset addr ≤ 6) (hreg : ¬ (0 ≤ reg ∧ reg < 16)) :
    loadCache reg addr m = .fault (.register reg)
      (if isHit (m.Cache (cacheIndex addr)) addr then m else loadMissState m addr) := by
  have hidx := cacheIndex_lt addr
  have ho1 : byteOffset addr + 1 < 8 := by omega
  have ho0 : byteOffset addr < 8 := byteOffset_lt addr
  unfold loadCache
  cases hhit : isHit (m.Cache (cacheIndex addr)) addr <;>
    simp [cacheAt, hidx, hhit, evictAndFill_eq, setLine, dataGet, ho1, ho0, loadMissState,
      afterFill, regSet, hreg]

theorem storeCache_fault_register (m : Microprocessor) (reg : Int) (addr : Nat)
    (hreg : ¬ (0 ≤ reg ∧ reg < 16)) :
    storeCache reg addr m = .fault (.register reg)
      (if isHit (m.Cache (cacheIndex addr)) addr then m else storeFillState m addr) := by
  have hidx := cacheIndex_lt addr
  unfold storeCache
  cases hhit : isHit (m.Cache (cacheIndex addr)) addr <;>
    simp [cacheAt, hidx, hhit, evictAndFill_eq, setLine, storeFillState,
      afterFill, regGet, hreg]

theorem storeCache_fault_offset (m : Microprocessor) (reg : Int) (addr : Nat)
    (hoff : ¬ byteOffset addr ≤ 6) (hr0 : 0 ≤ reg) (hr1 : reg < 16) :
    storeCache reg addr m = .fault (.lineData (byteOffset addr + 1))
      (storeFirstByteState m reg addr) := by
  have hidx := cacheIndex_lt addr
  have ho1 : ¬ byteOffset addr + 1 < 8 := by omega
  have ho0 : byteOffset addr < 8 := byteOffset_lt addr
  unfold storeCache
  cases hhit : isHit (m.Cache (cacheIndex addr)) addr <;>
    simp [cacheAt, hidx, hhit, evictAndFill_eq, setLine, dataSet, ho1, ho0, storeFirstByteState,
      afterFill, regGet, hr0, hr1]

/-! ## Outcomes of an instruction -/

theorem traces_append (xs ys : List Output) : traces (xs ++ ys) = traces xs ++ traces ys := by
  induction xs with
  | nil => rfl
  | cons o os ih => cases o <;> simp [traces, ih]

theorem traces_printed (t : TraceLine) (m : Microprocessor) :
    traces (printed t m).cout = traces m.cout ++ [t] := by
  cases hdbg : m.debug <;> simp [printed, hdbg, traces_append, traces]

theorem loadCache_ok (m m1 : Microprocessor) (reg : Int) (addr : Nat)
    (h : loadCache reg addr m = .ok () m1) :
    byteOffset addr ≤ 6 ∧ 0 ≤ reg ∧ reg < 16 := by
  by_cases hoff : byteOffset addr ≤ 6
  · by_cases hreg : 0 ≤ reg ∧ reg < 16
    · exact ⟨hoff, hreg⟩
    · rw [loadCache_fault_register m reg addr hoff hreg] at h
      cases h
  · rw [loadCache_fault_offset m reg addr hoff] at h
    cases h

theorem storeCache_ok (m m1 : Microprocessor) (reg : Int) (addr : Nat)
    (h : storeCache reg addr m = .ok () m1) :
    byteOffset addr ≤ 6 ∧ 0 ≤ reg ∧ reg < 16 := by
  by_cases hreg : 0 ≤ reg ∧ reg < 16
  · by_cases hoff : byteOffset addr ≤ 6
    · exact ⟨hoff, hreg⟩
    · rw [storeCache_fault_offset m reg addr hoff hreg.1 hreg.2] at h
      cases h
  · rw [storeCache_fault_register m reg addr hreg] at h
    cases h

theorem loadCache_isOk (m : Microprocessor) (reg : Int) (addr : Nat)
    (hoff : byteOffset addr ≤ 6) (hr0 : 0 ≤ reg) (hr1 : reg < 16) :
    (loadCache reg addr m).isOk = true := by
  cases hhit : isHit (m.Cache (cacheIndex addr)) addr
  · rw [loadCache_miss m reg addr hhit hoff hr0 hr1]; rfl
  · rw [loadCache_hit m reg addr hhit hoff hr0 hr1]; rfl

theorem storeCache_isOk (m : Microprocessor) (reg : Int) (addr : Nat)
    (hoff : byteOffset addr ≤ 6) (hr0 : 0 ≤ reg) (hr1 : reg < 16) :
    (storeCache reg addr m).isOk = true := by
  cases hhit : isHit (m.Cache (cacheIndex addr)) addr
  · rw [storeCache_miss m reg addr hhit hoff hr0 hr1]; rfl
  · rw [storeCache_hit m reg addr hhit hoff hr0 hr1]; rfl

/-- A finished load printed one trace line, flagged by the lookup. -/
theorem loadCache_trace (m m1 : Microprocessor) (reg : Int) (addr : Nat)
    (h : loadCache reg addr m = .ok () m1) :
    ∃ v, traces m1.cout = traces m.cout ++
      [traceOf "LDR" reg addr (isHit (m.Cache (cacheIndex addr)) addr) (some v)] := by
  obtain ⟨hoff, hr0, hr1⟩ := loadCache_ok m m1 reg addr h
  cases hhit : isHit (m.Cache (cacheIndex addr)) addr
  · rw [loadCache_miss m reg addr hhit hoff hr0 hr1] at h
    injection h with _ h
    exact ⟨missValue m addr, by rw [← h, traces_printed]; rfl⟩
  · rw [loadCache_hit m reg addr hhit hoff hr0 hr1] at h
    injection h with _ h
    exact ⟨hitValue m addr, by rw [← h, traces_printed]⟩

/-- A finished store printed one trace line, flagged by the lookup. -/
theorem storeCache_trace (m m1 : Microprocessor) (reg : Int) (addr : Nat)
    (h : storeCache reg addr m = .ok () m1) :
    traces m1.cout = traces m.cout ++
      [traceOf "STR" reg addr (isHit (m.Cache (cacheIndex addr)) addr) none] := by
  obtain ⟨hoff, hr0, hr1⟩ := storeCache_ok m m1 reg addr h
  cases hhit : isHit (m.Cache (cacheIndex addr)) addr
  · rw [storeCache_miss m reg addr hhit hoff hr0 hr1] at h
    injection h with _ h
    rw [← h, traces_printed]
  · rw [storeCache_hit m reg addr hhit hoff hr0 hr1] at h
    injection h with _ h
    rw [← h, traces_printed]

/-- The cache after a finished load. -/
theorem loadCache_cache (m m1 : Microprocessor) (reg : Int) (addr : Nat)
    (h : loadCache reg addr m = .ok () m1) :
    m1.Cache = if isHit (m.Cache (cacheIndex addr)) addr then m.Cache
      else Function.update m.Cache (cacheIndex addr)
        { valid := true, mod := false, tag := tagOf addr, data := dataAfterFill m addr } := by
  obtain ⟨hoff, hr0, hr1⟩ := loadCache_ok m m1 reg addr h
  cases hhit : isHit (m.Cache (cacheIndex addr)) addr
  · rw [loadCache_miss m reg addr hhit hoff hr0 hr1] at h
    injection h with _ h
    rw [← h]; simp [printed, loadMissState]
  · rw [loadCache_hit m reg addr hhit hoff hr0 hr1] at h
    injection h with _ h
    rw [← h]; simp [printed]

/-- The cache after a finished store. -/
theorem storeCache_cache (m m1 : Microprocessor) (reg : Int) (addr : Nat)
    (h : storeCache reg addr m = .ok () m1) :
    m1.Cache = Function.update m.Cache (cacheIndex addr)
      (if isHit (m.Cache (cacheIndex addr)) addr then storeHitLine m reg addr
       else storeMissLine m reg addr) := by
  obtain ⟨hoff, hr0, hr1⟩ := storeCache_ok m m1 reg addr h
  cases hhit : isHit (m.Cache (cacheIndex addr)) addr
  · rw [storeCache_miss m reg addr hhit hoff hr0 hr1] at h
    injection h with _ h
    rw [← h]; simp [printed]
  · rw [storeCache_hit m reg addr hhit hoff hr0 hr1] at h
    injection h with _ h
    rw [← h]; simp [printed]

/-! ## Construction -/

theorem forLoop_ramSet_state (f g : Nat → Nat) (n i : Nat) (m : Microprocessor) :
    (forLoop (fun k => ramSet (f k) (g k)) n i m).state.Cache = m.Cache
    ∧ (forLoop (fun k => ramSet (f k) (g k)) n i m).state.r = m.r := by
  induction n generalizing i m with
  | zero => exact ⟨rfl, rfl⟩
  | succ n ih =>
    simp only [forLoop, bind_apply, ramSet]
    by_cases h : f i < 65536
    · simp only [if_pos h]
      exact ih _ _
    · simp only [if_neg h]
      exact ⟨rfl, rfl⟩

theorem loadRows_state (image : List ImageRow) (m : Microprocessor) :
    (loadRows image m).state.Cache = m.Cache ∧ (loadRows image m).state.r = m.r := by
  induction image generalizing m with
  | nil => exact ⟨rfl, rfl⟩
  | cons row rows ih =>
    have h := forLoop_ramSet_state (fun i => row.addr + i) (fun i => (row.byte i % 256).toNat)
      16 0 m
    simp only [loadRows, bind_apply]
    cases hres : forLoop (fun i => ramSet (row.addr + i) (row.byte i % 256).toNat) 16 0 m with
    | ok x m1 =>
      rw [hres] at h
      simp only []
      rw [(ih m1).1, (ih m1).2]
      exact h
    | fault e m1 =>
      rw [hres] at h
      exact h

theorem constructWithRam_state (image : List ImageRow) (debug : Bool) :
    (constructWithRam image debug).state.Cache = (init debug).Cache
    ∧ (constructWithRam image debug).state.r = (init debug).r := by
  have h := loadRows_state image (init debug)
  simp only [constructWithRam, loadRAM, bind_apply]
  cases hres : loadRows image (init debug) with
  | ok x m1 =>
    rw [hres] at h
    simp only [getDebug]
    cases hd : m1.debug <;> simp [display, emit, Res.state] <;> exact h
  | fault e m1 =>
    rw [hres] at h
    exact h

/-! ## The miss path, whatever the outcome -/

theorem Res.eq_ok_state (x : Res Unit) (h : x.isOk = true) : x = .ok () x.state := by
  cases x with
  | ok u m => rfl
  | fault e m => cases h

/-- On a miss a load has written the resident line back and refilled it, whether
or not it goes on to finish. -/
theorem loadCache_miss_state (m : Microprocessor) (reg : Int) (addr : Nat)
    (hhit : isHit (m.Cache (cacheIndex addr)) addr = false) :
    (loadCache reg addr m).state.RAM = ramAfterEvict m addr
    ∧ (loadCache reg addr m).state.Cache = Function.update m.Cache (cacheIndex addr)
        { valid := true, mod := false, tag := tagOf addr, data := dataAfterFill m addr } := by
  by_cases hoff : byteOffset addr ≤ 6
  · by_cases hreg : 0 ≤ reg ∧ reg < 16
    · rw [loadCache_miss m reg addr hhit hoff hreg.1 hreg.2]
      simp [Res.state, printed, loadMissState]
    · rw [loadCache_fault_register m reg addr hoff hreg]
      simp [Res.state, hhit, loadMissState]
  · rw [loadCache_fault_offset m reg addr hoff]
    simp [Res.state, hhit, loadMissState]

/-- On a miss a store has written the resident line back and retagged it, whether
or not it goes on to finish. -/
theorem storeCache_miss_state (m : Microprocessor) (reg : Int) (addr : Nat)
    (hhit : isHit (m.Cache (cacheIndex addr)) addr = false) :
    (storeCache reg addr m).state.RAM = ramAfterEvict m addr
    ∧ ((storeCache reg addr m).state.Cache (cacheIndex addr)).valid = true
    ∧ ((storeCache reg addr m).state.Cache (cacheIndex addr)).tag = tagOf addr
    ∧ ∀ i, i ≠ cacheIndex addr → (storeCache reg addr m).state.Cache i = m.Cache i := by
  by_cases hreg : 0 ≤ reg ∧ reg < 16
  · by_cases hoff : byteOffset addr ≤ 6
    · rw [storeCache_miss m reg addr hhit hoff hreg.1 hreg.2]
      simp +contextual [Res.state, printed, storeMissLine,
        Function.update_apply]
    · rw [storeCache_fault_offset m reg addr hoff hreg.1 hreg.2]
      simp +contextual [Res.state, hhit, storeFirstByteState,
        Function.update_apply]
  · rw [storeCache_fault_register m reg addr hreg]
    simp +contextual [Res.state, hhit, storeFillState,
      Function.update_apply]

/-- On a hit a load leaves cache and memory as they are, whether or not it goes
on to finish. -/
theorem loadCache_hit_state (m : Microprocessor) (reg : Int) (addr : Nat)
    (hhit : isHit (m.Cache (cacheIndex addr)) addr = true) :
    (loadCache reg addr m).state.Cache = m.Cache
    ∧ (loadCache reg addr m).state.RAM = m.RAM := by
  by_cases hoff : byteOffset addr ≤ 6
  · by_cases hreg : 0 ≤ reg ∧ reg < 16
    · rw [loadCache_hit m reg addr hhit hoff hreg.1 hreg.2]
      simp [Res.state, printed]
    · rw [loadCache_fault_register m reg addr hoff hreg]
      simp [Res.state, hhit]
  · rw [loadCache_fault_offset m reg addr hoff]
    simp [Res.state, hhit]

theorem dataAfterFill_init (debug : Bool) (addr k : Nat) :
    dataAfterFill (init debug) addr k = 0 := by
  simp [dataAfterFill, ramAfterEvict, init]

/-- The write-back puts the evicted line at its own block address. -/
theorem ramAfterEvict_old (m : Microprocessor) (addr t k : Nat)
    (hvalid : (m.Cache (cacheIndex addr)).valid = true)
    (hmod : (m.Cache (cacheIndex addr)).mod = true)
    (htag : (m.Cache (cacheIndex addr)).tag = t) (ht : t < 1024) (hk : k < 8) :
    ramAfterEvict m addr (((t <<< 6) ||| (cacheIndex addr <<< 3)) + k)
      = (m.Cache (cacheIndex addr)).data k := by
  have hidx := cacheIndex_lt addr
  have hold : oldBlockAddr (m.Cache (cacheIndex addr)) (cacheIndex addr)
      = t * 64 + cacheIndex addr * 8 := by
    rw [oldBlockAddr_eq _ _ hidx, htag]; omega
  unfold ramAfterEvict
  rw [hold, shift_or_eq _ _ hidx]
  simp [hvalid, hmod, hk]

/-! ## Records -/

theorem readInstr_LDR (rec : Record) (h : rec.operation = "LDR") :
    readInstr (some rec) = loadCache rec.reg rec.addr := by
  simp [readInstr, h]

theorem readInstr_STR (rec : Record) (h : rec.operation = "STR") :
    readInstr (some rec) = storeCache rec.reg rec.addr := by
  simp [readInstr, h]

theorem readInstr_skip (rec : Record) (h1 : rec.operation ≠ "LDR") (h2 : rec.operation ≠ "STR")
    (m : Microprocessor) : readInstr (some rec) m = .ok () m := by
  simp [readInstr, h1, h2]

/-- An instruction stops, if at all, at `data[offset + 1]` or at `r[reg]`. -/
theorem loadCache_faultOf (m : Microprocessor) (reg : Int) (addr : Nat) :
    (loadCache reg addr m).faultOf = none
    ∨ (loadCache reg addr m).faultOf = some (.lineData (byteOffset addr + 1))
    ∨ (loadCache reg addr m).faultOf = some (.register reg) := by
  by_cases hoff : byteOffset addr ≤ 6
  · by_cases hreg : 0 ≤ reg ∧ reg < 16
    · left
      have h := loadCache_isOk m reg addr hoff hreg.1 hreg.2
      rw [Res.eq_ok_state _ h]; rfl
    · right; right
      rw [loadCache_fault_register m reg addr hoff hreg]; rfl
  · right; left
    rw [loadCache_fault_offset m reg addr hoff]; rfl

theorem storeCache_faultOf (m : Microprocessor) (reg : Int) (addr : Nat) :
    (storeCache reg addr m).faultOf = none
    ∨ (storeCache reg addr m).faultOf = some (.lineData (byteOffset addr + 1))
    ∨ (storeCache reg addr m).faultOf = some (.register reg) := by
  by_cases hreg : 0 ≤ reg ∧ reg < 16
  · by_cases hoff : byteOffset addr ≤ 6
    · left
      have h := storeCache_isOk m reg addr hoff hreg.1 hreg.2
      rw [Res.eq_ok_state _ h]; rfl
    · right; left
      rw [storeCache_fault_offset m reg addr hoff hreg.1 hreg.2]; rfl
  · right; right
    rw [storeCache_fault_register m reg addr hreg]; rfl

/-- Memory after a load, finished or not. -/
theorem loadCache_RAM (m : Microprocessor) (reg : Int) (addr : Nat) :
    (loadCache reg addr m).state.RAM
      = if isHit (m.Cache (cacheIndex addr)) addr then m.RAM else ramAfterEvict m addr := by
  cases hhit : isHit (m.Cache (cacheIndex addr)) addr
  · simpa using (loadCache_miss_state m reg addr hhit).1
  · simpa using (loadCache_hit_state m reg addr hhit).2

/-- Memory after a store, finished or not. -/
theorem storeCache_RAM (m : Microprocessor) (reg : Int) (addr : Nat) :
    (storeCache reg addr m).state.RAM
      = if isHit (m.Cache (cacheIndex addr)) addr then m.RAM else ramAfterEvict m addr := by
  cases hhit : isHit (m.Cache (cacheIndex addr)) addr
  · simpa using (storeCache_miss_state m reg addr hhit).1
  · by_cases hreg : 0 ≤ reg ∧ reg < 16
    · by_cases hoff : byteOffset addr ≤ 6
      · rw [storeCache_hit m reg addr hhit hoff hreg.1 hreg.2]
        simp [Res.state, printed]
      · rw [storeCache_fault_offset m reg addr hoff hreg.1 hreg.2]
        simp [Res.state, storeFirstByteState, hhit]
    · rw [storeCache_fault_register m reg addr hreg]
      simp [Res.state, hhit]

/-- The write-back changes memory only inside the block of the evicted line. -/
theorem ramAfterEvict_ne (m : Microprocessor) (addr x : Nat)
    (h : ramAfterEvict m addr x ≠ m.RAM x) :
    (m.Cache (cacheIndex addr)).valid = true ∧ (m.Cache (cacheIndex addr)).mod = true
    ∧ oldBlockAddr (m.Cache (cacheIndex addr)) (cacheIndex addr) ≤ x
    ∧ x < oldBlockAddr (m.Cache (cacheIndex addr)) (cacheIndex addr) + 8 := by
  unfold ramAfterEvict at h
  by_cases hd : ((m.Cache (cacheIndex addr)).valid && (m.Cache (cacheIndex addr)).mod) = true
  · simp only [hd, if_true] at h
    by_cases hx : oldBlockAddr (m.Cache (cacheIndex addr)) (cacheIndex addr) ≤ x
        ∧ x < oldBlockAddr (m.Cache (cacheIndex addr)) (cacheIndex addr) + 8
    · simp only [Bool.and_eq_true] at hd
      exact ⟨hd.1, hd.2, hx.1, hx.2⟩
    · simp only [if_neg hx] at h
      exact absurd rfl h
  · simp only [hd] at h
    exact absurd rfl h

/-! ## The clean-line invariant -/

theorem blockAddr_split (a : Nat) : blockAddr a = tagOf a * 64 + cacheIndex a * 8 := by
  rw [blockAddr_eq, tagOf_eq, cacheIndex_eq]; omega

theorem block_fields (t i k : Nat) (ht : t < 1024) (hi : i < 8) (hk : k < 8) :
    t * 64 + i * 8 + k < 65536 ∧ tagOf (t * 64 + i * 8 + k) = t
    ∧ cacheIndex (t * 64 + i * 8 + k) = i ∧ byteOffset (t * 64 + i * 8 + k) = k := by
  rw [tagOf_eq, cacheIndex_eq, byteOffset_eq]; omega

theorem in_block_iff (t i x : Nat) (ht : t < 1024) (hi : i < 8) :
    (t * 64 + i * 8 ≤ x ∧ x < t * 64 + i * 8 + 8)
      ↔ (x < 65536 ∧ tagOf x = t ∧ cacheIndex x = i) := by
  rw [tagOf_eq, cacheIndex_eq]; omega

theorem oldBlockAddr_of_lt (l : CacheLine) (i : Nat) (hi : i < 8) (ht : l.tag < 1024) :
    oldBlockAddr l i = l.tag * 64 + i * 8 := by
  rw [oldBlockAddr_eq l i hi]; omega

/-- The miss path keeps the invariant, whatever is then done to the line's flags
and bytes, as long as a line left clean holds the bytes that were filled in. -/
theorem CleanLinesMirror.miss (m m1 : Microprocessor) (addr : Nat) (l : CacheLine)
    (hinv : CleanLinesMirror m)
    (hc : m1.Cache = Function.update m.Cache (cacheIndex addr) l)
    (hr : m1.RAM = ramAfterEvict m addr)
    (htag : l.tag = tagOf addr)
    (hdata : l.mod = false → ∀ k, k < 8 → l.data k = dataAfterFill m addr k) :
    CleanLinesMirror m1 := by
  have hidx := cacheIndex_lt addr
  intro i hi
  by_cases hie : i = cacheIndex addr
  · subst hie
    rw [hc, hr]
    simp only [Function.update_same, htag]
    refine ⟨tagOf_lt addr, ?_⟩
    intro _ hmod k hk
    rw [hdata hmod k hk, shift_or_eq _ _ hidx, ← blockAddr_split]
    simp [dataAfterFill, hk]
  · rw [hc, hr]
    simp only [Function.update_noteq hie]
    obtain ⟨hti, hdi⟩ := hinv i hi
    refine ⟨hti, ?_⟩
    intro hv hmod k hk
    rw [hdi hv hmod k hk]
    by_contra hne
    obtain ⟨_, _, h1, h2⟩ := ramAfterEvict_ne m addr _ (Ne.symm hne)
    rw [oldBlockAddr_of_lt _ _ hidx (hinv _ hidx).1, shift_or_eq _ _ hi] at h1 h2
    omega

/-- A change to a line that leaves it modified with its tag keeps the invariant. -/
theorem CleanLinesMirror.hit (m m1 : Microprocessor) (idx : Nat) (l : CacheLine)
    (hinv : CleanLinesMirror m)
    (hc : m1.Cache = Function.update m.Cache idx l)
    (hr : m1.RAM = m.RAM)
    (htag : l.tag = (m.Cache idx).tag) (hmod : l.mod = true) :
    CleanLinesMirror m1 := by
  intro i hi
  by_cases hie : i = idx
  · subst hie
    rw [hc]
    simp only [Function.update_same, htag]
    refine ⟨(hinv i hi).1, ?_⟩
    intro _ h
    rw [hmod] at h
    cases h
  · rw [hc, hr]
    simp only [Function.update_noteq hie]
    exact hinv i hi

theorem CleanLinesMirror.loadCache (m m1 : Microprocessor) (reg : Int) (addr : Nat)
    (hinv : CleanLinesMirror m) (h : loadCache reg addr m = .ok () m1) :
    CleanLinesMirror m1 := by
  have hc := loadCache_cache m m1 reg addr h
  have hr := loadCache_RAM m reg addr
  rw [h] at hr
  simp only [Res.state] at hr
  cases hhit : isHit (m.Cache (cacheIndex addr)) addr
  · simp only [hhit, Bool.false_eq_true, if_false] at hc hr
    exact CleanLinesMirror.miss m m1 addr _ hinv hc hr rfl (fun _ _ _ => rfl)
  · simp only [hhit, if_true] at hc hr
    intro i hi
    rw [hc, hr]
    exact hinv i hi

theorem CleanLinesMirror.storeCache (m m1 : Microprocessor) (reg : Int) (addr : Nat)
    (hinv : CleanLinesMirror m) (h : storeCache reg addr m = .ok () m1) :
    CleanLinesMirror m1 := by
  have hc := storeCache_cache m m1 reg addr h
  have hr := storeCache_RAM m reg addr
  rw [h] at hr
  simp only [Res.state] at hr
  cases hhit : isHit (m.Cache (cacheIndex addr)) addr
  · simp only [hhit, Bool.false_eq_true, if_false] at hc hr
    refine CleanLinesMirror.miss m m1 addr _ hinv hc hr rfl ?_
    intro hmod
    simp [storeMissLine] at hmod
  · simp only [hhit, if_true] at hc hr
    exact CleanLinesMirror.hit m m1 _ _ hinv hc hr rfl rfl

theorem CleanLinesMirror.readInstr (m m1 : Microprocessor) (l : Option Record)
    (hinv : CleanLinesMirror m) (h : readInstr l m = .ok () m1) :
    CleanLinesMirror m1 := by
  cases l with
  | none =>
    simp only [Proj07.readInstr, pure_apply] at h
    injection h with _ h
    rw [← h]; exact hinv
  | some rec =>
    by_cases h1 : rec.operation = "LDR"
    · rw [readInstr_LDR rec h1] at h
      exact CleanLinesMirror.loadCache m m1 _ _ hinv h
    · by_cases h2 : rec.operation = "STR"
      · rw [readInstr_STR rec h2] at h
        exact CleanLinesMirror.storeCache m m1 _ _ hinv h
      · rw [readInstr_skip rec h1 h2] at h
        injection h with _ h
        rw [← h]; exact hinv

theorem CleanLinesMirror.readAll (ls : List (Option Record)) (m m1 : Microprocessor)
    (hinv : CleanLinesMirror m) (h : readAll ls m = .ok () m1) :
    CleanLinesMirror m1 := by
  induction ls generalizing m with
  | nil =>
    simp only [Proj07.readAll, pure_apply] at h
    injection h with _ h
    rw [← h]; exact hinv
  | cons l ls ih =>
    simp only [Proj07.readAll, bind_apply] at h
    cases hstep : Proj07.readInstr l m with
    | ok x m2 =>
      rw [hstep] at h
      exact ih m2 (CleanLinesMirror.readInstr m m2 l hinv hstep) h
    | fault e m2 =>
      rw [hstep] at h
      cases h

theorem CleanLinesMirror.of_cache_init (m : Microprocessor) (debug : Bool)
    (hc : m.Cache = (init debug).Cache) : CleanLinesMirror m := by
  intro i _
  rw [hc]
  simp [init]

theorem CleanLinesMirror.of_reachable (m : Microprocessor) (h : Reachable m) :
    CleanLinesMirror m := by
  obtain ⟨image, debug, m0, lines, hm0, hrun⟩ := h
  refine CleanLinesMirror.readAll lines m0 m ?_ hrun
  refine CleanLinesMirror.of_cache_init m0 debug ?_
  rcases hm0 with h | h
  · rw [h]
  · have := (constructWithRam_state image debug).1
    rw [h] at this
    exact this

/-! ## Lines that are not instructions -/

theorem readInstr_unrecognised (l : Option Record) (h : recognised l = false)
    (m : Microprocessor) : readInstr l m = .ok () m := by
  cases l with
  | none => rfl
  | some rec =>
    simp only [recognised, Bool.or_eq_false_iff, decide_eq_false_iff_not] at h
    exact readInstr_skip rec h.1 h.2 m

theorem readAll_filter (ls : List (Option Record)) (m : Microprocessor) :
    readAll (ls.filter recognised) m = readAll ls m := by
  induction ls generalizing m with
  | nil => rfl
  | cons l ls ih =>
    cases hl : recognised l
    · simp only [List.filter_cons, hl, Bool.false_eq_true, if_false, readAll, bind_apply,
        readInstr_unrecognised l hl m]
      exact ih m
    · simp only [List.filter_cons, hl, if_true, readAll, bind_apply]
      cases readInstr l m with
      | ok x m1 => exact ih m1
      | fault e m1 => rfl

theorem reachable_afterStreamC : Reachable afterStreamC :=
  ⟨[], false, init false, streamC, Or.inl rfl,
    Res.eq_ok_state (readAll streamC (init false)) (by decide!)⟩

/-! ## What is printed -/

theorem snapshots_append (xs ys : List Output) :
    snapshots (xs ++ ys) = snapshots xs ++ snapshots ys := by
  induction xs with
  | nil => rfl
  | cons o os ih => cases o <;> simp [snapshots, ih]

theorem printed_cout (t : TraceLine) (m : Microprocessor) :
    (printed t m).cout
      = m.cout ++ (.trace t :: if m.debug then [.cacheContents (cacheRows m)] else []) := by
  cases hdbg : m.debug <;> simp [printed, hdbg]

theorem snapshots_printed (t : TraceLine) (m : Microprocessor) :
    snapshots (printed t m).cout = snapshots m.cout := by
  cases hdbg : m.debug <;> simp [printed, hdbg, snapshots_append, snapshots]

/-- What a finished load printed. -/
theorem loadCache_cout (m m1 : Microprocessor) (reg : Int) (addr : Nat)
    (h : loadCache reg addr m = .ok () m1) :
    m1.debug = m.debug
    ∧ ∃ t, m1.cout
        = m.cout ++ (.trace t :: if m.debug then [.cacheContents (cacheRows m1)] else []) := by
  obtain ⟨hoff, hr0, hr1⟩ := loadCache_ok m m1 reg addr h
  cases hhit : isHit (m.Cache (cacheIndex addr)) addr
  · rw [loadCache_miss m reg addr hhit hoff hr0 hr1] at h
    injection h with _ h
    subst h
    refine ⟨rfl, traceOf "LDR" reg addr false (some (missValue m addr)), ?_⟩
    rw [printed_cout]
    cases hdbg : m.debug <;> simp [loadMissState, hdbg, printed, cacheRows]
  · rw [loadCache_hit m reg addr hhit hoff hr0 hr1] at h
    injection h with _ h
    subst h
    refine ⟨rfl, traceOf "LDR" reg addr true (some (hitValue m addr)), ?_⟩
    rw [printed_cout]
    cases hdbg : m.debug <;> simp [hdbg, printed, cacheRows]

/-- What a finished store printed. -/
theorem storeCache_cout (m m1 : Microprocessor) (reg : Int) (addr : Nat)
    (h : storeCache reg addr m = .ok () m1) :
    m1.debug = m.debug
    ∧ ∃ t, m1.cout
        = m.cout ++ (.trace t :: if m.debug then [.cacheContents (cacheRows m1)] else []) := by
  obtain ⟨hoff, hr0, hr1⟩ := storeCache_ok m m1 reg addr h
  cases hhit : isHit (m.Cache (cacheIndex addr)) addr
  · rw [storeCache_miss m reg addr hhit hoff hr0 hr1] at h
    injection h with _ h
    subst h
    refine ⟨rfl, traceOf "STR" reg addr false none, ?_⟩
    rw [printed_cout]
    cases hdbg : m.debug <;> simp [hdbg, printed, cacheRows]
  · rw [storeCache_hit m reg addr hhit hoff hr0 hr1] at h
    injection h with _ h
    subst h
    refine ⟨rfl, traceOf "STR" reg addr true none, ?_⟩
    rw [printed_cout]
    cases hdbg : m.debug <;> simp [hdbg, printed, cacheRows]

theorem readInstr_snapshots (l : Option Record) (m m1 : Microprocessor)
    (h : readInstr l m = .ok () m1) : snapshots m1.cout = snapshots m.cout := by
  have hcase : ∀ t : TraceLine, snapshots (m.cout ++
      (.trace t :: if m.debug then [.cacheContents (cacheRows m1)] else []))
      = snapshots m.cout := by
    intro t
    cases m.debug <;> simp [snapshots_append, snapshots]
  cases l with
  | none =>
    simp only [readInstr, pure_apply] at h
    injection h with _ h
    rw [← h]
  | some rec =>
    by_cases h1 : rec.operation = "LDR"
    · rw [readInstr_LDR rec h1] at h
      obtain ⟨_, t, ht⟩ := loadCache_cout m m1 _ _ h
      rw [ht, hcase]
    · by_cases h2 : rec.operation = "STR"
      · rw [readInstr_STR rec h2] at h
        obtain ⟨_, t, ht⟩ := storeCache_cout m m1 _ _ h
        rw [ht, hcase]
      · rw [readInstr_skip rec h1 h2] at h
        injection h with _ h
        rw [← h]

theorem readAll_snapshots (ls : List (Option Record)) (m m1 : Microprocessor)
    (h : readAll ls m = .ok () m1) : snapshots m1.cout = snapshots m.cout := by
  induction ls generalizing m with
  | nil =>
    simp only [readAll, pure_apply] at h
    injection h with _ h
    rw [← h]
  | cons l ls ih =>
    simp only [readAll, bind_apply] at h
    cases hstep : readInstr l m with
    | ok x m2 =>
      rw [hstep] at h
      rw [ih m2 h, readInstr_snapshots l m m2 hstep]
    | fault e m2 =>
      rw [hstep] at h
      cases h

/-! ## The view through the cache -/

theorem eq_of_fields (x a : Nat) (hx : x < 65536) (ha : a < 65536)
    (ht : tagOf x = tagOf a) (hi : cacheIndex x = cacheIndex a)
    (ho : byteOffset x = byteOffset a) : x = a := by
  rw [tagOf_eq, tagOf_eq] at ht
  rw [cacheIndex_eq, cacheIndex_eq] at hi
  rw [byteOffset_eq, byteOffset_eq] at ho
  omega

theorem eq_succ_of_fields (x a : Nat) (hx : x < 65536) (ha : a < 65536)
    (ht : tagOf x = tagOf a) (hi : cacheIndex x = cacheIndex a)
    (ho : byteOffset x = byteOffset a + 1) : x = a + 1 := by
  rw [tagOf_eq, tagOf_eq] at ht
  rw [cacheIndex_eq, cacheIndex_eq] at hi
  rw [byteOffset_eq, byteOffset_eq] at ho
  omega

theorem block_of (x : Nat) (hx : x < 65536) :
    x = tagOf x * 64 + cacheIndex x * 8 + byteOffset x := by
  rw [tagOf_eq, cacheIndex_eq, byteOffset_eq]; omega

/-- Memory after the write-back, by the fields of the address looked at. -/
theorem ramAfterEvict_eq (m : Microprocessor) (addr x : Nat)
    (ht : (m.Cache (cacheIndex addr)).tag < 1024) (hx : x < 65536) :
    ramAfterEvict m addr x
      = if ((m.Cache (cacheIndex addr)).valid && (m.Cache (cacheIndex addr)).mod) = true
            ∧ tagOf x = (m.Cache (cacheIndex addr)).tag ∧ cacheIndex x = cacheIndex addr
        then (m.Cache (cacheIndex addr)).data (byteOffset x) else m.RAM x := by
  have hidx := cacheIndex_lt addr
  have hblk := block_of x hx
  unfold ramAfterEvict
  rw [oldBlockAddr_of_lt _ _ hidx ht]
  by_cases hd : ((m.Cache (cacheIndex addr)).valid && (m.Cache (cacheIndex addr)).mod) = true
  · simp only [hd, if_true, true_and]
    by_cases hin : tagOf x = (m.Cache (cacheIndex addr)).tag ∧ cacheIndex x = cacheIndex addr
    · have hb := byteOffset_lt x
      rw [if_pos hin, if_pos (by rw [← hin.1, ← hin.2]; omega)]
      congr 1
      rw [← hin.1, ← hin.2]; omega
    · rw [if_neg hin, if_neg]
      intro hr
      exact hin ((in_block_iff _ _ x ht hidx).1 hr).2
  · simp [hd]

/-- What is filled into the line on a miss is what memory held for the block. -/
theorem dataAfterFill_eq (m : Microprocessor) (addr k : Nat)
    (ht : (m.Cache (cacheIndex addr)).tag < 1024)
    (hmiss : isHit (m.Cache (cacheIndex addr)) addr = false) (hk : k < 8) :
    dataAfterFill m addr k = m.RAM (blockAddr addr + k) := by
  have hidx := cacheIndex_lt addr
  obtain ⟨hlt, hf1, hf2, _⟩ := block_fields (tagOf addr) (cacheIndex addr) k (tagOf_lt addr)
    hidx hk
  simp only [dataAfterFill, if_pos hk]
  rw [blockAddr_split, ramAfterEvict_eq m addr _ ht hlt, if_neg]
  rintro ⟨hd, htag, _⟩
  rw [hf1] at htag
  simp only [Bool.and_eq_true] at hd
  simp [isHit, hd.1, htag] at hmiss

/-- A miss does not change the view, at any address whose line byte is the one
that was filled in. -/
theorem view_miss (m m1 : Microprocessor) (addr x : Nat) (l : CacheLine)
    (hinv : CleanLinesMirror m)
    (hmiss : isHit (m.Cache (cacheIndex addr)) addr = false)
    (hc : m1.Cache = Function.update m.Cache (cacheIndex addr) l)
    (hr : m1.RAM = ramAfterEvict m addr)
    (hvalid : l.valid = true) (htag : l.tag = tagOf addr) (hx : x < 65536)
    (hdata : tagOf x = tagOf addr → cacheIndex x = cacheIndex addr →
      l.data (byteOffset x) = dataAfterFill m addr (byteOffset x)) :
    view m1 x = view m x := by
  have hidx := cacheIndex_lt addr
  have hto := (hinv _ hidx).1
  have hblk := block_of x hx
  have hbo := byteOffset_lt x
  unfold view
  rw [hc, hr, ramAfterEvict_eq m addr x hto hx]
  by_cases hxi : cacheIndex x = cacheIndex addr
  · rw [hxi]
    simp only [Function.update_same]
    by_cases hxt : tagOf x = tagOf addr
    · have h1 : isHit l x = true := by simp [isHit, hvalid, htag, hxt]
      have h2 : isHit (m.Cache (cacheIndex addr)) x = false := by
        simpa [isHit, hxt] using hmiss
      rw [h1, h2, if_pos rfl, hdata hxt hxi, dataAfterFill_eq m addr _ hto hmiss hbo,
        blockAddr_split, ← hxt, ← hxi, ← hblk]
      simp
    · have h1 : isHit l x = false := by
        simp only [isHit, hvalid, htag, Bool.true_and, beq_eq_false_iff_ne]
        exact fun e => hxt e.symm
      rw [h1]
      simp only [Bool.false_eq_true, if_false]
      cases hv : (m.Cache (cacheIndex addr)).valid
      · simp [isHit, hv]
      · by_cases hot : (m.Cache (cacheIndex addr)).tag = tagOf x
        · have h2 : isHit (m.Cache (cacheIndex addr)) x = true := by simp [isHit, hv, hot]
          rw [h2, if_pos rfl]
          cases hmd : (m.Cache (cacheIndex addr)).mod
          · have hd := (hinv _ hidx).2 hv hmd (byteOffset x) hbo
            rw [shift_or_eq _ _ hidx, hot, ← hxi, ← hblk] at hd
            rw [hxi] at hd
            simp [hd]
          · simp [hot]
        · have h2 : isHit (m.Cache (cacheIndex addr)) x = false := by
            simp only [isHit, hv, Bool.true_and, beq_eq_false_iff_ne]
            exact hot
          rw [h2, if_neg]
          · simp
          · rintro ⟨_, h, _⟩
            exact hot h.symm
  · simp only [Function.update_noteq hxi]
    have hno : ¬ (((m.Cache (cacheIndex addr)).valid && (m.Cache (cacheIndex addr)).mod) = true
        ∧ tagOf x = (m.Cache (cacheIndex addr)).tag ∧ cacheIndex x = cacheIndex addr) :=
      fun h => hxi h.2.2
    rw [if_neg hno]

theorem reachable_afterTwoLoads : Reachable afterTwoLoads :=
  ⟨[imageRow1234], false, seeded, streamTwoLoads,
    Or.inr (Res.eq_ok_state (constructWithRam [imageRow1234] false) (by decide!)),
    Res.eq_ok_state (readAll streamTwoLoads seeded) (by decide!)⟩

/-! ## Bytes of a 16-bit value -/

theorem bytes_recombine (v : Nat) (hv : v < 65536) :
    (((((v >>> 8) &&& 0xFF) % 256) <<< 8) ||| ((v &&& 0xFF) % 256)) % 65536 = v := by
  rw [and_0xFF, and_0xFF, Nat.shiftRight_eq_div_pow,
    shift_or_byte _ _ (Nat.mod_lt _ (by norm_num))]
  norm_num
  omega

/-- After a miss on a line with a 10-bit tag, memory at the evicted line's block
holds the line's bytes when it was valid and modified. -/
theorem ramAfterEvict_block (m : Microprocessor) (addr blk k : Nat)
    (hv : (m.Cache (cacheIndex addr)).valid = true)
    (hmod : (m.Cache (cacheIndex addr)).mod = true)
    (hblk : blk = (m.Cache (cacheIndex addr)).tag * 64 + cacheIndex addr * 8)
    (ht : (m.Cache (cacheIndex addr)).tag < 1024) (hk : k < 8) :
    ramAfterEvict m addr (blk + k) = (m.Cache (cacheIndex addr)).data k := by
  have h := ramAfterEvict_old m addr _ k hv hmod rfl ht hk
  rw [shift_or_eq _ _ (cacheIndex_lt addr)] at h
  rw [hblk]; exact h

/-- Claim C1. Address decomposition is lossless: for every 16-bit address `a`, the
fields computed at the head of `loadCache` and `storeCache` satisfy
`(tag << 6) | (index << 3) = blockAddr = a & 0xFFF8` and `blockAddr + offset = a`,
with `offset < 8`, `index < 8`, `tag < 1024`; and `a` is the only 16-bit address
with these three fields. -/
theorem address_decomposition_lossless (a : Nat) (ha : a < 65536) :
    ((tagOf a <<< 6) ||| (cacheIndex a <<< 3) = blockAddr a)
    ∧ blockAddr a = a &&& 0xFFF8
    ∧ blockAddr a + byteOffset a = a
    ∧ byteOffset a < 8 ∧ cacheIndex a < 8 ∧ tagOf a < 1024
    ∧ (∀ b, b < 65536 → tagOf b = tagOf a → cacheIndex b = cacheIndex a →
        byteOffset b = byteOffset a → b = a) := by
  have hidx : cacheIndex a < 8 := by rw [cacheIndex_eq]; omega
  refine ⟨?_, ?_, ?_, ?_, hidx, ?_, ?_⟩
  · rw [shift_or_eq _ _ hidx, tagOf_eq, cacheIndex_eq, blockAddr_eq]; omega
  · rw [blockAddr_eq, and_0xFFF8]
  · rw [blockAddr_eq, byteOffset_eq]; omega
  · rw [byteOffset_eq]; omega
  · rw [tagOf_eq]; omega
  · intro b hb
    simp only [tagOf_eq, cacheIndex_eq, byteOffset_eq]
    omega

theorem address_decomposition_lossless_witness :
    (0xABCD < 65536)
    ∧ (((tagOf 0xABCD <<< 6) ||| (cacheIndex 0xABCD <<< 3) = blockAddr 0xABCD)
      ∧ blockAddr 0xABCD = 0xABCD &&& 0xFFF8
      ∧ blockAddr 0xABCD + byteOffset 0xABCD = 0xABCD
      ∧ byteOffset 0xABCD < 8 ∧ cacheIndex 0xABCD < 8 ∧ tagOf 0xABCD < 1024
      ∧ (∀ b, b < 65536 → tagOf b = tagOf 0xABCD → cacheIndex b = cacheIndex 0xABCD →
          byteOffset b = byteOffset 0xABCD → b = 0xABCD)) :=
  ⟨by decide, address_decomposition_lossless 0xABCD (by decide)⟩

/-- Claim C2. Cold-start miss: on a freshly constructed simulator (built by either
constructor, so with zero memory or memory seeded by any image), for every
address, every register index in 0..15 and either instruction, the lookup of the
first instruction is a miss; when the instruction finishes its trace line carries
the flag `M`, and it does finish whenever the offset of the address is at most 6. -/
theorem cold_start_miss (image : List ImageRow) (debug : Bool) (m0 : Microprocessor)
    (hm0 : m0 = init debug ∨ constructWithRam image debug = .ok () m0)
    (reg : Int) (a : Nat) (hr0 : 0 ≤ reg) (hr1 : reg < 16) :
    isHit (m0.Cache (cacheIndex a)) a = false
    ∧ (∀ m1, loadCache reg a m0 = .ok () m1 →
        ∃ t, traces m1.cout = traces m0.cout ++ [t] ∧ t.hitBit = 'M')
    ∧ (∀ m1, storeCache reg a m0 = .ok () m1 →
        ∃ t, traces m1.cout = traces m0.cout ++ [t] ∧ t.hitBit = 'M')
    ∧ (byteOffset a ≤ 6 →
        (loadCache reg a m0).isOk = true ∧ (storeCache reg a m0).isOk = true) := by
  have hcache : m0.Cache = (init debug).Cache := by
    rcases hm0 with h | h
    · rw [h]
    · have := (constructWithRam_state image debug).1
      rw [h] at this
      exact this
  have hmiss : isHit (m0.Cache (cacheIndex a)) a = false := by
    rw [hcache]; simp [isHit, init]
  refine ⟨hmiss, ?_, ?_, ?_⟩
  · intro m1 h
    obtain ⟨v, hv⟩ := loadCache_trace m0 m1 reg a h
    exact ⟨_, hv, by simp [traceOf, hmiss]⟩
  · intro m1 h
    exact ⟨_, storeCache_trace m0 m1 reg a h, by simp [traceOf, hmiss]⟩
  · intro hoff
    exact ⟨loadCache_isOk m0 reg a hoff hr0 hr1, storeCache_isOk m0 reg a hoff hr0 hr1⟩

theorem cold_start_miss_witness :
    ((init false = init false ∨ constructWithRam [] false = .ok () (init false))
      ∧ (0 : Int) ≤ 1 ∧ (1 : Int) < 16)
    ∧ (isHit ((init false).Cache (cacheIndex 0x10)) 0x10 = false
      ∧ (∀ m1, loadCache 1 0x10 (init false) = .ok () m1 →
          ∃ t, traces m1.cout = traces (init false).cout ++ [t] ∧ t.hitBit = 'M')
      ∧ (∀ m1, storeCache 1 0x10 (init false) = .ok () m1 →
          ∃ t, traces m1.cout = traces (init false).cout ++ [t] ∧ t.hitBit = 'M')
      ∧ (byteOffset 0x10 ≤ 6 →
          (loadCache 1 0x10 (init false)).isOk = true
          ∧ (storeCache 1 0x10 (init false)).isOk = true)) :=
  ⟨⟨Or.inl rfl, by decide, by decide⟩,
    cold_start_miss [] false (init false) (Or.inl rfl) 1 0x10 (by decide) (by decide)⟩

/-- Claim C4. No silent data loss on eviction: when the line at index `i` is valid
and modified with (10-bit) tag `t` and data `d`, after an `LDR` or `STR` to an
address with index `i` and another tag the eight bytes
`RAM[((t << 6) | (i << 3)) + k]`, `k = 0..7`, are `d[k]`, and the line holds the
new tag. -/
theorem no_data_loss_on_eviction (m : Microprocessor) (reg : Int) (a i t : Nat)
    (hi : cacheIndex a = i)
    (hvalid : (m.Cache i).valid = true) (hmod : (m.Cache i).mod = true)
    (htag : (m.Cache i).tag = t) (ht : t < 1024) (hne : tagOf a ≠ t) :
    ((∀ k, k < 8 →
        (loadCache reg a m).state.RAM (((t <<< 6) ||| (i <<< 3)) + k) = (m.Cache i).data k)
      ∧ ((loadCache reg a m).state.Cache i).tag = tagOf a)
    ∧ ((∀ k, k < 8 →
        (storeCache reg a m).state.RAM (((t <<< 6) ||| (i <<< 3)) + k) = (m.Cache i).data k)
      ∧ ((storeCache reg a m).state.Cache i).tag = tagOf a) := by
  subst hi
  have hhit : isHit (m.Cache (cacheIndex a)) a = false := by
    simp only [isHit, htag, hvalid, Bool.true_and, beq_eq_false_iff_ne]
    exact fun e => hne e.symm
  obtain ⟨hl1, hl2⟩ := loadCache_miss_state m reg a hhit
  obtain ⟨hs1, _, hs3, _⟩ := storeCache_miss_state m reg a hhit
  refine ⟨⟨?_, ?_⟩, ?_, hs3⟩
  · intro k hk
    rw [hl1]; exact ramAfterEvict_old m a t k hvalid hmod htag ht hk
  · rw [hl2]; simp
  · intro k hk
    rw [hs1]; exact ramAfterEvict_old m a t k hvalid hmod htag ht hk

theorem no_data_loss_on_eviction_witness :
    (cacheIndex 0x0040 = 0
      ∧ (afterStr0.Cache 0).valid = true ∧ (afterStr0.Cache 0).mod = true
      ∧ (afterStr0.Cache 0).tag = 0 ∧ 0 < 1024 ∧ tagOf 0x0040 ≠ 0)
    ∧ (((∀ k, k < 8 →
          (loadCache 0 0x0040 afterStr0).state.RAM (((0 <<< 6) ||| (0 <<< 3)) + k)
            = (afterStr0.Cache 0).data k)
        ∧ ((loadCache 0 0x0040 afterStr0).state.Cache 0).tag = tagOf 0x0040)
      ∧ ((∀ k, k < 8 →
          (storeCache 0 0x0040 afterStr0).state.RAM (((0 <<< 6) ||| (0 <<< 3)) + k)
            = (afterStr0.Cache 0).data k)
        ∧ ((storeCache 0 0x0040 afterStr0).state.Cache 0).tag = tagOf 0x0040)) :=
  ⟨⟨by decide, by decide!, by decide!, by decide!, by decide, by decide⟩,
    no_data_loss_on_eviction afterStr0 0 0x0040 0 0 (by decide) (by decide!) (by decide!)
      (by decide!) (by decide) (by decide)⟩

/-- Claim C5, evaluated on the code. Scenario B (register 1 holding `0x1234`, then
`STR 1 0010`, `LDR 2 0010`): the store misses, the load hits, and register 2
receives `0x3412`, the stored value with its two bytes exchanged.  The same
happens when register 1 is loaded from a memory image first. -/
theorem store_then_load_exchanges_bytes :
    ((readAll streamB scenarioB).isOk = true
      ∧ (readAll streamB scenarioB).state.r 2 = 0x3412
      ∧ traces (readAll streamB scenarioB).state.cout
          = [traceOf "STR" 1 0x10 false none, traceOf "LDR" 2 0x10 true (some 0x3412)])
    ∧ ((constructWithRam [imageRow1234] false).isOk = true
      ∧ (readAll streamB2 seeded).isOk = true
      ∧ (readAll streamB2 seeded).state.r 1 = 0x1234
      ∧ (readAll streamB2 seeded).state.r 2 = 0x3412) := by
  decide!

/-- Claim C6. Cold load of zero memory: on the machine built without an image, for
every address with offset at most 6 and every register in 0..15, `LDR reg, a`
finishes as a miss whose trace line carries `tag(a)`, `index(a)`, `offset(a)` and
the value 0; afterwards the register is 0, line `index(a)` is valid, not modified,
has tag `tag(a)` and eight zero bytes, and every other line is still invalid. -/
theorem cold_load_of_zero_memory (debug : Bool) (reg : Int) (a : Nat)
    (hoff : byteOffset a ≤ 6) (hr0 : 0 ≤ reg) (hr1 : reg < 16) :
    ∃ m1, loadCache reg a (init debug) = .ok () m1
      ∧ traces m1.cout = [{ op := "LDR", reg := reg, addr := a, tag := tagOf a,
                            index := cacheIndex a, offset := byteOffset a, hitBit := 'M',
                            value := some 0 }]
      ∧ m1.r reg.toNat = 0
      ∧ (m1.Cache (cacheIndex a)).valid = true
      ∧ (m1.Cache (cacheIndex a)).mod = false
      ∧ (m1.Cache (cacheIndex a)).tag = tagOf a
      ∧ (∀ k, k < 8 → (m1.Cache (cacheIndex a)).data k = 0)
      ∧ (∀ i, i < 8 → i ≠ cacheIndex a → (m1.Cache i).valid = false) := by
  have hmiss : isHit ((init debug).Cache (cacheIndex a)) a = false := by simp [isHit, init]
  have hval : missValue (init debug) a = 0 := by
    simp [missValue, dataAfterFill_init]
  refine ⟨_, loadCache_miss (init debug) reg a hmiss hoff hr0 hr1, ?_, ?_, ?_, ?_, ?_, ?_, ?_⟩
  · rw [traces_printed, hval]; simp [loadMissState, init, traces, traceOf]
  · simp [printed, hval]
  · simp [printed, loadMissState]
  · simp [printed, loadMissState]
  · simp [printed, loadMissState]
  · intro k _
    simp [printed, loadMissState, dataAfterFill_init]
  · intro i _ hi
    simp [printed, loadMissState, Function.update_apply, hi, init]

theorem cold_load_of_zero_memory_witness :
    (byteOffset 0x0000 ≤ 6 ∧ (0 : Int) ≤ 0 ∧ (0 : Int) < 16)
    ∧ ∃ m1, loadCache 0 0x0000 (init false) = .ok () m1
      ∧ traces m1.cout = [{ op := "LDR", reg := 0, addr := 0x0000, tag := tagOf 0x0000,
                            index := cacheIndex 0x0000, offset := byteOffset 0x0000,
                            hitBit := 'M', value := some 0 }]
      ∧ m1.r (0 : Int).toNat = 0
      ∧ (m1.Cache (cacheIndex 0x0000)).valid = true
      ∧ (m1.Cache (cacheIndex 0x0000)).mod = false
      ∧ (m1.Cache (cacheIndex 0x0000)).tag = tagOf 0x0000
      ∧ (∀ k, k < 8 → (m1.Cache (cacheIndex 0x0000)).data k = 0)
      ∧ (∀ i, i < 8 → i ≠ cacheIndex 0x0000 → (m1.Cache i).valid = false) :=
  ⟨⟨by decide, by decide, by decide⟩,
    cold_load_of_zero_memory false 0 0x0000 (by decide) (by decide) (by decide)⟩

/-- Claim C8, evaluated on the code. With `RAM[0] = 0x12`, `RAM[1] = 0x34` loaded
from an image, `LDR 0 0000` (a miss) delivers `0x1234` and the immediately
following `LDR 1 0000` (a hit) delivers `0x3412`: the hit path and the miss path
combine the two line bytes in opposite orders. -/
theorem two_loads_deliver_different_values :
    (constructWithRam [imageRow1234] false).isOk = true
    ∧ (readAll streamTwoLoads seeded).isOk = true
    ∧ (readAll streamTwoLoads seeded).state.r 0 = 0x1234
    ∧ (readAll streamTwoLoads seeded).state.r 1 = 0x3412
    ∧ traces (readAll streamTwoLoads seeded).state.cout
        = [traceOf "LDR" 0 0x00 false (some 0x1234), traceOf "LDR" 1 0x00 true (some 0x3412)] := by
  decide!

/-- Claim C9, evaluated on the code. With register 1 holding `0x1234`, the store
`STR 1 0010` that misses leaves `0x12` at `[offset]` and `0x34` at `[offset+1]`
of line 2; the same store repeated, which hits, leaves `0x34` at `[offset]` and
`0x12` at `[offset+1]`. -/
theorem store_byte_order_differs_by_path :
    ((constructWithRam [imageRow1234] false).isOk = true
      ∧ (readAll streamLoadStore seeded).isOk = true
      ∧ afterStoreMiss.r 1 = 0x1234
      ∧ (afterStoreMiss.Cache 2).data 0 = 0x12
      ∧ (afterStoreMiss.Cache 2).data 1 = 0x34)
    ∧ ((storeCache 1 0x10 afterStoreMiss).isOk = true
      ∧ isHit (afterStoreMiss.Cache (cacheIndex 0x10)) 0x10 = true
      ∧ ((storeCache 1 0x10 afterStoreMiss).state.Cache 2).data 0 = 0x34
      ∧ ((storeCache 1 0x10 afterStoreMiss).state.Cache 2).data 1 = 0x12) := by
  decide!

/-- Claim C10 fails on the code: the record `LDR 10 0000` (register index 16) on
the constructed machine is not rejected.  Line 0 is filled and made valid, and
then `r[16]` is subscripted. -/
theorem invalid_register_not_rejected :
    (readInstr (some recLdr16) (init false)).faultOf = some (Fault.register 16)
    ∧ ((readInstr (some recLdr16) (init false)).state.Cache 0).valid = true
    ∧ ((init false).Cache 0).valid = false := by
  decide!

/-- Claim C10 as amended. There is no register validation: an `LDR` (offset at
most 6) or `STR` record whose register index is outside 0..15 is dispatched like
any other and the index is used to subscript the register array, out of range.
The registers are as before at that point; on a hit so are cache and memory; on
a miss the line at `index(a)` has already been made valid with tag `tag(a)`. -/
theorem register_index_is_not_validated (m : Microprocessor) (rec : Record)
    (hreg : ¬ (0 ≤ rec.reg ∧ rec.reg < 16))
    (hop : (rec.operation = "LDR" ∧ byteOffset rec.addr ≤ 6) ∨ rec.operation = "STR") :
    (readInstr (some rec) m).faultOf = some (Fault.register rec.reg)
    ∧ (readInstr (some rec) m).state.r = m.r
    ∧ (isHit (m.Cache (cacheIndex rec.addr)) rec.addr = true →
        (readInstr (some rec) m).state.Cache = m.Cache
        ∧ (readInstr (some rec) m).state.RAM = m.RAM)
    ∧ (isHit (m.Cache (cacheIndex rec.addr)) rec.addr = false →
        ((readInstr (some rec) m).state.Cache (cacheIndex rec.addr)).valid = true
        ∧ ((readInstr (some rec) m).state.Cache (cacheIndex rec.addr)).tag
            = tagOf rec.addr) := by
  rcases hop with ⟨hop, hoff⟩ | hop
  · rw [readInstr_LDR rec hop, loadCache_fault_register m rec.reg rec.addr hoff hreg]
    cases hhit : isHit (m.Cache (cacheIndex rec.addr)) rec.addr <;>
      simp [Res.faultOf, Res.state, loadMissState]
  · rw [readInstr_STR rec hop, storeCache_fault_register m rec.reg rec.addr hreg]
    cases hhit : isHit (m.Cache (cacheIndex rec.addr)) rec.addr <;>
      simp [Res.faultOf, Res.state, storeFillState]

theorem register_index_is_not_validated_witness :
    (¬ (0 ≤ recLdr16.reg ∧ recLdr16.reg < 16)
      ∧ ((recLdr16.operation = "LDR" ∧ byteOffset recLdr16.addr ≤ 6)
          ∨ recLdr16.operation = "STR"))
    ∧ ((readInstr (some recLdr16) (init false)).faultOf = some (Fault.register recLdr16.reg)
      ∧ (readInstr (some recLdr16) (init false)).state.r = (init false).r
      ∧ (isHit ((init false).Cache (cacheIndex recLdr16.addr)) recLdr16.addr = true →
          (readInstr (some recLdr16) (init false)).state.Cache = (init false).Cache
          ∧ (readInstr (some recLdr16) (init false)).state.RAM = (init false).RAM)
      ∧ (isHit ((init false).Cache (cacheIndex recLdr16.addr)) recLdr16.addr = false →
          ((readInstr (some recLdr16) (init false)).state.Cache
              (cacheIndex recLdr16.addr)).valid = true
          ∧ ((readInstr (some recLdr16) (init false)).state.Cache
              (cacheIndex recLdr16.addr)).tag = tagOf recLdr16.addr)) :=
  ⟨⟨by decide, Or.inl ⟨rfl, by decide⟩⟩,
    register_index_is_not_validated (init false) recLdr16 (by decide)
      (Or.inl ⟨rfl, by decide⟩)⟩

/-- Claim C11. Every address maps to a valid cache slot and valid memory bytes: in
every reachable state and for every address, the cache index is in 0..7, the
memory indices `blockAddr + k` of the fill and `((line.tag << 6) | (index << 3)) + k`
of the write-back, `k = 0..7`, are in 0..65535, and neither `loadCache` nor
`storeCache` (any register) stops at a subscript of `Cache` or of `RAM`. -/
theorem address_maps_to_valid_slot_and_memory (m : Microprocessor) (hm : Reachable m)
    (reg : Int) (a : Nat) :
    cacheIndex a < 8
    ∧ (∀ k, k < 8 →
        blockAddr a + k < 65536
        ∧ (((m.Cache (cacheIndex a)).tag <<< 6) ||| (cacheIndex a <<< 3)) + k < 65536)
    ∧ (∀ i, (loadCache reg a m).faultOf ≠ some (.cacheSlot i)
        ∧ (loadCache reg a m).faultOf ≠ some (.ram i)
        ∧ (storeCache reg a m).faultOf ≠ some (.cacheSlot i)
        ∧ (storeCache reg a m).faultOf ≠ some (.ram i)) := by
  have hidx := cacheIndex_lt a
  have htag := (CleanLinesMirror.of_reachable m hm (cacheIndex a) hidx).1
  refine ⟨hidx, ?_, ?_⟩
  · intro k hk
    have hb := blockAddr_le a
    rw [shift_or_eq _ _ hidx]
    omega
  · intro i
    have hl := loadCache_faultOf m reg a
    have hs := storeCache_faultOf m reg a
    refine ⟨?_, ?_, ?_, ?_⟩ <;> intro h
    · rw [h] at hl; simp at hl
    · rw [h] at hl; simp at hl
    · rw [h] at hs; simp at hs
    · rw [h] at hs; simp at hs

theorem address_maps_to_valid_slot_and_memory_witness :
    Reachable afterStreamC
    ∧ (cacheIndex 0xFFFF < 8
      ∧ (∀ k, k < 8 →
          blockAddr 0xFFFF + k < 65536
          ∧ (((afterStreamC.Cache (cacheIndex 0xFFFF)).tag <<< 6)
              ||| (cacheIndex 0xFFFF <<< 3)) + k < 65536)
      ∧ (∀ i, (loadCache 3 0xFFFF afterStreamC).faultOf ≠ some (.cacheSlot i)
          ∧ (loadCache 3 0xFFFF afterStreamC).faultOf ≠ some (.ram i)
          ∧ (storeCache 3 0xFFFF afterStreamC).faultOf ≠ some (.cacheSlot i)
          ∧ (storeCache 3 0xFFFF afterStreamC).faultOf ≠ some (.ram i))) :=
  ⟨reachable_afterStreamC,
    address_maps_to_valid_slot_and_memory afterStreamC reachable_afterStreamC 3 0xFFFF⟩

/-- Claim C12. Write-back policy (memory frame): for every state and every `LDR` or
`STR`, finished or not, a memory byte differs from its value before the
instruction only if the access missed on a line that was valid and modified, and
then only within the eight bytes starting at that line's `oldBlockAddr`, which
is `(oldTag << 6) | (index << 3)` for a 10-bit tag; so a hit, and a miss on an
invalid or unmodified line, leave all of memory unchanged. -/
theorem memory_changes_only_by_write_back (m : Microprocessor) (reg : Int) (a : Nat) :
    (∀ x, (loadCache reg a m).state.RAM x ≠ m.RAM x ∨ (storeCache reg a m).state.RAM x ≠ m.RAM x →
      isHit (m.Cache (cacheIndex a)) a = false
      ∧ (m.Cache (cacheIndex a)).valid = true ∧ (m.Cache (cacheIndex a)).mod = true
      ∧ oldBlockAddr (m.Cache (cacheIndex a)) (cacheIndex a) ≤ x
      ∧ x < oldBlockAddr (m.Cache (cacheIndex a)) (cacheIndex a) + 8)
    ∧ ((m.Cache (cacheIndex a)).tag < 1024 →
        oldBlockAddr (m.Cache (cacheIndex a)) (cacheIndex a)
          = (((m.Cache (cacheIndex a)).tag <<< 6) ||| (cacheIndex a <<< 3)))
    ∧ (isHit (m.Cache (cacheIndex a)) a = true
        ∨ (m.Cache (cacheIndex a)).valid = false ∨ (m.Cache (cacheIndex a)).mod = false →
        (loadCache reg a m).state.RAM = m.RAM ∧ (storeCache reg a m).state.RAM = m.RAM) := by
  have hidx := cacheIndex_lt a
  have key : ∀ x, (if isHit (m.Cache (cacheIndex a)) a then m.RAM else ramAfterEvict m a) x
      ≠ m.RAM x →
      isHit (m.Cache (cacheIndex a)) a = false
      ∧ (m.Cache (cacheIndex a)).valid = true ∧ (m.Cache (cacheIndex a)).mod = true
      ∧ oldBlockAddr (m.Cache (cacheIndex a)) (cacheIndex a) ≤ x
      ∧ x < oldBlockAddr (m.Cache (cacheIndex a)) (cacheIndex a) + 8 := by
    intro x hx
    cases hhit : isHit (m.Cache (cacheIndex a)) a
    · simp only [hhit, Bool.false_eq_true, if_false] at hx
      exact ⟨rfl, ramAfterEvict_ne m a x hx⟩
    · simp only [hhit, if_true] at hx
      exact absurd rfl hx
  refine ⟨?_, ?_, ?_⟩
  · intro x hx
    rw [loadCache_RAM, storeCache_RAM, or_self] at hx
    exact key x hx
  · intro ht
    rw [oldBlockAddr_of_lt _ _ hidx ht, shift_or_eq _ _ hidx]
  · intro h
    have hsame : (if isHit (m.Cache (cacheIndex a)) a then m.RAM else ramAfterEvict m a)
        = m.RAM := by
      funext x
      by_contra hx
      obtain ⟨h1, h2, h3, _⟩ := key x hx
      rcases h with h | h | h
      · rw [h] at h1; cases h1
      · rw [h] at h2; cases h2
      · rw [h] at h3; cases h3
    rw [loadCache_RAM, storeCache_RAM]
    exact ⟨hsame, hsame⟩

/-- Claim C13. Unrecognised records are skipped: a line that does not parse, or
whose mnemonic is neither `LDR` nor `STR`, leaves the whole state (registers,
cache, memory and output) as it is; so reading a stream gives the same outcome
as reading the stream with those lines removed, also through `Start`. -/
theorem unrecognised_records_are_skipped (m : Microprocessor) :
    (∀ l, recognised l = false → readInstr l m = .ok () m)
    ∧ (∀ lines, readAll lines m = readAll (lines.filter recognised) m)
    ∧ (∀ lines, Start lines m = Start (lines.filter recognised) m) := by
  refine ⟨fun l h => readInstr_unrecognised l h m, fun lines => (readAll_filter lines m).symm, ?_⟩
  intro lines
  simp only [Start, bind_apply, readAll_filter]

/-- Claim C14, evaluated on the code. The trace line of `STR` carries no value the
store computed: the local `value` of `storeCache` is printed without ever being
assigned, on the miss path (first store of register 1, holding `0x1234`) and on
the hit path (the same store repeated). -/
theorem store_trace_value_is_never_assigned :
    afterStoreMiss.r 1 = 0x1234
    ∧ (storeCache 1 0x10 afterStoreMiss).isOk = true
    ∧ traces (storeCache 1 0x10 afterStoreMiss).state.cout
        = [traceOf "LDR" 1 0x00 false (some 0x1234), traceOf "STR" 1 0x10 false none,
           traceOf "STR" 1 0x10 true none] := by
  decide!

/-- Claim C15. Load trace record: for every state, register in 0..15 and address
with offset at most 6, `LDR reg, a` finishes and adds exactly one trace line, with
`op = LDR`, `reg`, `a`, `tag(a)`, `index(a)`, `offset(a)`, the flag `H` exactly
when the line at `index(a)` was valid with tag `tag(a)` before the access, and
the value that register `reg` holds afterwards. -/
theorem load_trace_record (m : Microprocessor) (reg : Int) (a : Nat)
    (hoff : byteOffset a ≤ 6) (hr0 : 0 ≤ reg) (hr1 : reg < 16) :
    ∃ m1, loadCache reg a m = .ok () m1
      ∧ traces m1.cout = traces m.cout ++
          [{ op := "LDR", reg := reg, addr := a, tag := tagOf a, index := cacheIndex a,
             offset := byteOffset a,
             hitBit := if (m.Cache (cacheIndex a)).valid = true
                          ∧ (m.Cache (cacheIndex a)).tag = tagOf a then 'H' else 'M',
             value := some (m1.r reg.toNat) }] := by
  cases hhit : isHit (m.Cache (cacheIndex a)) a
  · refine ⟨_, loadCache_miss m reg a hhit hoff hr0 hr1, ?_⟩
    have hc : ¬ ((m.Cache (cacheIndex a)).valid = true
        ∧ (m.Cache (cacheIndex a)).tag = tagOf a) := by
      intro h
      simp [isHit, h.1, h.2] at hhit
    rw [traces_printed]
    simp [traceOf, printed, hc, loadMissState]
  · refine ⟨_, loadCache_hit m reg a hhit hoff hr0 hr1, ?_⟩
    have hc : (m.Cache (cacheIndex a)).valid = true
        ∧ (m.Cache (cacheIndex a)).tag = tagOf a := by
      simpa [isHit] using hhit
    rw [traces_printed]
    simp [traceOf, printed, hc]

theorem load_trace_record_witness :
    (byteOffset 0x0012 ≤ 6 ∧ (0 : Int) ≤ 5 ∧ (5 : Int) < 16)
    ∧ ∃ m1, loadCache 5 0x0012 afterStoreMiss = .ok () m1
      ∧ traces m1.cout = traces afterStoreMiss.cout ++
          [{ op := "LDR", reg := 5, addr := 0x0012, tag := tagOf 0x0012,
             index := cacheIndex 0x0012, offset := byteOffset 0x0012,
             hitBit := if (afterStoreMiss.Cache (cacheIndex 0x0012)).valid = true
                          ∧ (afterStoreMiss.Cache (cacheIndex 0x0012)).tag = tagOf 0x0012
                        then 'H' else 'M',
             value := some (m1.r (5 : Int).toNat) }] :=
  ⟨⟨by decide, by decide, by decide⟩,
    load_trace_record afterStoreMiss 5 0x0012 (by decide) (by decide) (by decide)⟩

/-- Claim C16 fails on the code: in debug mode the stream `LDR 0 0000`, `LDR 1 0000`
prints, after each instruction, its trace line and the cache table only; the one
full snapshot of the run is the one printed when the stream is exhausted. -/
theorem debug_mode_prints_cache_table_only :
    (init true).debug = true
    ∧ (Start streamTwoLoads (init true)).isOk = true
    ∧ (Start streamTwoLoads (init true)).state.cout
        = [.trace (traceOf "LDR" 0 0x00 false (some 0)),
           .cacheContents (cacheRows afterDebugLoad1),
           .trace (traceOf "LDR" 1 0x00 true (some 0)),
           .cacheContents (cacheRows afterDebugLoad2),
           snapshotOf afterDebugLoad2] := by
  decide!

/-- Claim C16 as amended. After every finished `LDR` or `STR` the output has grown
by the trace line and, in debug mode only, the cache table (eight rows of valid
flag, modified flag, tag and eight bytes) of the state reached; no full snapshot
is printed while the stream is read; and, in either mode, `Start` prints exactly
one full snapshot (sixteen registers, eight cache rows, `RAM[0..127]`) of the
final state once the stream is exhausted. -/
theorem snapshot_schedule (lines : List (Option Record)) (m m1 : Microprocessor)
    (hrun : readAll lines m = .ok () m1) :
    (∀ (s s1 : Microprocessor) (reg : Int) (a : Nat),
        loadCache reg a s = .ok () s1 ∨ storeCache reg a s = .ok () s1 →
        ∃ t, s1.cout
          = s.cout ++ (.trace t :: if s.debug then [.cacheContents (cacheRows s1)] else []))
    ∧ snapshots m1.cout = snapshots m.cout
    ∧ Start lines m = .ok () { m1 with cout := m1.cout ++ [snapshotOf m1] } := by
  refine ⟨?_, readAll_snapshots lines m m1 hrun, ?_⟩
  · intro s s1 reg a h
    rcases h with h | h
    · exact (loadCache_cout s s1 reg a h).2
    · exact (storeCache_cout s s1 reg a h).2
  · simp only [Start, bind_apply, hrun]
    rfl

theorem snapshot_schedule_witness :
    readAll streamTwoLoads (init true) = .ok () afterDebugLoad2
    ∧ ((∀ (s s1 : Microprocessor) (reg : Int) (a : Nat),
          loadCache reg a s = .ok () s1 ∨ storeCache reg a s = .ok () s1 →
          ∃ t, s1.cout
            = s.cout ++ (.trace t :: if s.debug then [.cacheContents (cacheRows s1)] else []))
      ∧ snapshots afterDebugLoad2.cout = snapshots (init true).cout
      ∧ Start streamTwoLoads (init true)
          = .ok () { afterDebugLoad2 with
                     cout := afterDebugLoad2.cout ++ [snapshotOf afterDebugLoad2] }) :=
  ⟨Res.eq_ok_state (readAll streamTwoLoads (init true)) (by decide!),
    snapshot_schedule streamTwoLoads (init true) afterDebugLoad2
      (Res.eq_ok_state (readAll streamTwoLoads (init true)) (by decide!))⟩

/-- Claim C17, evaluated on the code. At an address with offset 7 the second byte
position is `offset + 1 = 8`, outside `data[0..7]`: `LDR 0 0007` and `STR 0 0007`
on the constructed machine both stop at the subscript `data[8]`. -/
theorem offset_seven_leaves_the_block :
    byteOffset 0x0007 + 1 = 8
    ∧ (loadCache 0 0x0007 (init false)).faultOf = some (Fault.lineData 8)
    ∧ (storeCache 0 0x0007 (init false)).faultOf = some (Fault.lineData 8) := by
  decide!

/-- Claim C19. Cache transparency: in a state with the clean-line invariant, for a
register in 0..15 and a 16-bit address `a` with offset at most 6, `LDR` finishes
and leaves the view of every 16-bit address unchanged, and `STR` finishes and
leaves the view of every 16-bit address other than `a` and `a + 1` unchanged. -/
theorem cache_transparency (m : Microprocessor) (hinv : CleanLinesMirror m)
    (reg : Int) (a : Nat) (ha : a < 65536) (hoff : byteOffset a ≤ 6)
    (hr0 : 0 ≤ reg) (hr1 : reg < 16) :
    (∃ m1, loadCache reg a m = .ok () m1 ∧ ∀ x, x < 65536 → view m1 x = view m x)
    ∧ (∃ m1, storeCache reg a m = .ok () m1
        ∧ ∀ x, x < 65536 → x ≠ a → x ≠ a + 1 → view m1 x = view m x) := by
  have hoffs : ∀ x, x < 65536 → x ≠ a → x ≠ a + 1 → tagOf x = tagOf a →
      cacheIndex x = cacheIndex a →
      byteOffset x ≠ byteOffset a ∧ byteOffset x ≠ byteOffset a + 1 := by
    intro x hx hxa hxa1 ht hi
    exact ⟨fun ho => hxa (eq_of_fields x a hx ha ht hi ho),
      fun ho => hxa1 (eq_succ_of_fields x a hx ha ht hi ho)⟩
  cases hhit : isHit (m.Cache (cacheIndex a)) a
  · constructor
    · refine ⟨_, loadCache_miss m reg a hhit hoff hr0 hr1, ?_⟩
      intro x hx
      exact view_miss m _ a x _ hinv hhit rfl rfl rfl rfl hx (fun _ _ => rfl)
    · refine ⟨_, storeCache_miss m reg a hhit hoff hr0 hr1, ?_⟩
      intro x hx hxa hxa1
      refine view_miss m _ a x (storeMissLine m reg a) hinv hhit rfl rfl rfl rfl hx ?_
      intro ht hi
      obtain ⟨h1, h2⟩ := hoffs x hx hxa hxa1 ht hi
      simp [storeMissLine, Function.update_apply, h1, h2]
  · constructor
    · refine ⟨_, loadCache_hit m reg a hhit hoff hr0 hr1, ?_⟩
      intro x _
      rfl
    · refine ⟨_, storeCache_hit m reg a hhit hoff hr0 hr1, ?_⟩
      intro x hx hxa hxa1
      have hh : (m.Cache (cacheIndex a)).valid = true
          ∧ (m.Cache (cacheIndex a)).tag = tagOf a := by
        simpa [isHit] using hhit
      simp only [view, printed]
      by_cases hxi : cacheIndex x = cacheIndex a
      · rw [hxi]
        simp only [Function.update_same]
        have hsame : isHit (storeHitLine m reg a) x = isHit (m.Cache (cacheIndex a)) x := by
          simp [isHit, storeHitLine]
        rw [hsame]
        cases hx2 : isHit (m.Cache (cacheIndex a)) x
        · rfl
        · have ht : tagOf x = tagOf a := by
            have : (m.Cache (cacheIndex a)).tag = tagOf x := by
              simp only [isHit, hh.1, Bool.true_and, beq_iff_eq] at hx2
              exact hx2
            rw [← this, hh.2]
          obtain ⟨h1, h2⟩ := hoffs x hx hxa hxa1 ht hxi
          simp [storeHitLine, Function.update_apply, h1, h2]
      · simp only [Function.update_noteq hxi]

theorem cache_transparency_witness :
    (CleanLinesMirror afterTwoLoads ∧ 0x0012 < 65536 ∧ byteOffset 0x0012 ≤ 6
      ∧ (0 : Int) ≤ 5 ∧ (5 : Int) < 16)
    ∧ ((∃ m1, loadCache 5 0x0012 afterTwoLoads = .ok () m1
          ∧ ∀ x, x < 65536 → view m1 x = view afterTwoLoads x)
      ∧ (∃ m1, storeCache 5 0x0012 afterTwoLoads = .ok () m1
          ∧ ∀ x, x < 65536 → x ≠ 0x0012 → x ≠ 0x0012 + 1 →
            view m1 x = view afterTwoLoads x)) :=
  ⟨⟨CleanLinesMirror.of_reachable afterTwoLoads reachable_afterTwoLoads, by decide, by decide,
      by decide, by decide⟩,
    cache_transparency afterTwoLoads
      (CleanLinesMirror.of_reachable afterTwoLoads reachable_afterTwoLoads) 5 0x0012
      (by decide) (by decide) (by decide) (by decide)⟩

/-- Claim C20. Round trip through eviction: from any state, when `STR r1, a`
(offset of `a` at most 6, `r1` holding the 16-bit value `v`) misses and finishes,
then an `LDR` or `STR` to an address `b` with the index of `a` and another tag
finishes, a following `LDR r2, a` (register in 0..15) misses, finishes with the
trace flag `M`, and leaves `v` in register `r2`. -/
theorem round_trip_through_eviction (m m1 m2 : Microprocessor) (r1 rb r2 : Int)
    (a b v : Nat) (hv : v < 65536) (hr1 : m.r r1.toNat = v)
    (hidx : cacheIndex a = cacheIndex b) (htag : tagOf a ≠ tagOf b)
    (hmiss : isHit (m.Cache (cacheIndex a)) a = false)
    (h1 : storeCache r1 a m = .ok () m1)
    (h2 : loadCache rb b m1 = .ok () m2 ∨ storeCache rb b m1 = .ok () m2)
    (hr20 : 0 ≤ r2) (hr21 : r2 < 16) :
    isHit (m2.Cache (cacheIndex a)) a = false
    ∧ ∃ m3 t, loadCache r2 a m2 = .ok () m3 ∧ m3.r r2.toNat = v
        ∧ traces m3.cout = traces m2.cout ++ [t] ∧ t.hitBit = 'M' ∧ t.value = some v := by
  have hia := cacheIndex_lt a
  obtain ⟨hoff, _, _⟩ := storeCache_ok m m1 r1 a h1
  have ho0 : byteOffset a < 8 := by omega
  have ho1 : byteOffset a + 1 < 8 := by omega
  -- the line after the store
  have hc1 := storeCache_cache m m1 r1 a h1
  simp only [hmiss, Bool.false_eq_true, if_false] at hc1
  have hl1 : m1.Cache (cacheIndex b) = storeMissLine m r1 a := by
    rw [hc1, ← hidx]; simp
  have hmiss1 : isHit (m1.Cache (cacheIndex b)) b = false := by
    rw [hl1]
    simp only [isHit, storeMissLine, Bool.true_and, beq_eq_false_iff_ne]
    exact htag
  -- memory and line after the access to `b`
  have hr2 : m2.RAM = ramAfterEvict m1 b := by
    rcases h2 with h | h
    · have := loadCache_RAM m1 rb b
      rw [h, hmiss1] at this
      simpa [Res.state] using this
    · have := storeCache_RAM m1 rb b
      rw [h, hmiss1] at this
      simpa [Res.state] using this
  have hl2 : (m2.Cache (cacheIndex a)).valid = true
      ∧ (m2.Cache (cacheIndex a)).tag = tagOf b := by
    rw [hidx]
    rcases h2 with h | h
    · rw [loadCache_cache m1 m2 rb b h]
      simp [hmiss1]
    · rw [storeCache_cache m1 m2 rb b h]
      simp [hmiss1, storeMissLine]
  have hmiss2 : isHit (m2.Cache (cacheIndex a)) a = false := by
    simp only [isHit, hl2.1, hl2.2, Bool.true_and, beq_eq_false_iff_ne]
    exact fun e => htag e.symm
  -- the bytes the final load finds in memory
  have hback : ∀ k, k < 8 → m2.RAM (blockAddr a + k) = (storeMissLine m r1 a).data k := by
    intro k hk
    rw [hr2, ← hl1]
    refine ramAfterEvict_block m1 b _ k ?_ ?_ ?_ ?_ hk
    · rw [hl1]; rfl
    · rw [hl1]; rfl
    · rw [hl1, blockAddr_split, hidx]; rfl
    · rw [hl1]; exact tagOf_lt a
  have hfill : ∀ k, k < 8 → dataAfterFill m2 a k = (storeMissLine m r1 a).data k := by
    intro k hk
    rw [dataAfterFill_eq m2 a k (by rw [hl2.2]; exact tagOf_lt b) hmiss2 hk]
    exact hback k hk
  have hval : missValue m2 a = v := by
    have hne : byteOffset a + 1 ≠ byteOffset a := by omega
    simp only [missValue, hfill _ ho0, hfill _ ho1]
    simp only [storeMissLine, Function.update_apply, hne, if_true, if_false,
      Ne.symm hne, hr1]
    exact bytes_recombine v hv
  refine ⟨hmiss2, _, _, loadCache_miss m2 r2 a hmiss2 hoff hr20 hr21, ?_,
    traces_printed _ _, rfl, ?_⟩
  · simp [printed, hval]
  · simp [traceOf, hval]

theorem round_trip_through_eviction_witness :
    ((0x1234 < 65536 ∧ scenarioB.r (1 : Int).toNat = 0x1234
        ∧ cacheIndex 0x0010 = cacheIndex 0x0050 ∧ tagOf 0x0010 ≠ tagOf 0x0050
        ∧ isHit (scenarioB.Cache (cacheIndex 0x0010)) 0x0010 = false)
      ∧ storeCache 1 0x0010 scenarioB = .ok () tripAfterStore
      ∧ (loadCache 3 0x0050 tripAfterStore = .ok () tripAfterEvict
          ∨ storeCache 3 0x0050 tripAfterStore = .ok () tripAfterEvict)
      ∧ (0 : Int) ≤ 2 ∧ (2 : Int) < 16)
    ∧ (isHit (tripAfterEvict.Cache (cacheIndex 0x0010)) 0x0010 = false
      ∧ ∃ m3 t, loadCache 2 0x0010 tripAfterEvict = .ok () m3 ∧ m3.r (2 : Int).toNat = 0x1234
          ∧ traces m3.cout = traces tripAfterEvict.cout ++ [t] ∧ t.hitBit = 'M'
          ∧ t.value = some 0x1234) :=
  ⟨⟨⟨by decide, by decide!, by decide, by decide, by decide!⟩,
      Res.eq_ok_state (storeCache 1 0x0010 scenarioB) (by decide!),
      Or.inl (Res.eq_ok_state (loadCache 3 0x0050 tripAfterStore) (by decide!)),
      by decide, by decide⟩,
    round_trip_through_eviction scenarioB tripAfterStore tripAfterEvict 1 3 2 0x0010 0x0050
      0x1234 (by decide) (by decide!) (by decide) (by decide) (by decide!)
      (Res.eq_ok_state (storeCache 1 0x0010 scenarioB) (by decide!))
      (Or.inl (Res.eq_ok_state (loadCache 3 0x0050 tripAfterStore) (by decide!)))
      (by decide) (by decide)⟩

end Proj07
